import Mathlib

set_option autoImplicit false

namespace ChatSphere

/-!
Shallow embedding of the realtime conversation core of Chat-Sphere.

Entities follow `shared/schema.ts`; operations are translated from the two
storage implementations in the storage module (`DatabaseStorage`, modelled on
flat tables, and `MemStorage`, modelled on insertion-ordered association
lists mirroring the JS `Map`s), from the HTTP route handlers in
`server/routes.ts`, and from the typing-indicator socket handler.

Timestamps (`Date`) are modelled as `Nat`; `new Date()` reads the state's
`now` field.  `crypto.randomUUID()` / database-generated ids are modelled by
a `nextId` counter threaded through the state.  Nullable columns become
`Option`.
-/

/-- Status column of a friend request (`friend_requests.status`). -/
inductive FRStatus
  | pending
  | accepted
  | rejected
  deriving DecidableEq, Repr

/-- Row of the `users` table (fields not used by the verified operations are
omitted; identity is the `id`). -/
structure User where
  id : Nat
  username : String
  displayName : String
  deriving DecidableEq, Repr

/-- Row of the `conversations` table. -/
structure Conversation where
  id : Nat
  name : Option String
  isGroup : Bool
  createdAt : Nat
  lastMessageAt : Option Nat
  deriving DecidableEq, Repr

/-- Row of the `conversation_participants` table: membership of one user in
one conversation, carrying the per-membership last-read watermark. -/
structure Participant where
  id : Nat
  conversationId : Nat
  userId : Nat
  joinedAt : Nat
  lastReadAt : Option Nat
  deriving DecidableEq, Repr

/-- Row of the `messages` table; `senderId = none` for system messages. -/
structure Message where
  id : Nat
  conversationId : Nat
  senderId : Option Nat
  content : String
  isSystem : Bool
  createdAt : Nat
  deriving DecidableEq, Repr

/-- Row of the `friend_requests` table. -/
structure FriendRequest where
  id : Nat
  senderId : Nat
  receiverId : Nat
  status : FRStatus
  createdAt : Nat
  deriving DecidableEq, Repr

/-- Shape `MessageWithSender` returned by the message-listing operations:
the raw message together with the resolved sender (none for system
messages). -/
structure MessageWithSender where
  msg : Message
  sender : Option User
  deriving DecidableEq, Repr

/-- Payload `CreateConversationRequest` accepted by `createConversation`. -/
structure CreateConversationRequest where
  participantIds : List Nat
  isGroup : Bool
  name : Option String
  deriving DecidableEq, Repr

/-! Association-list helpers modelling the JS `Map` used by `MemStorage`:
`lookupL` is `Map.get`, `setL` is `Map.set` (replace in place when the key is
present, append otherwise, preserving insertion order), `updateFirst`
models mutating the element returned by `Array.find`. -/

/-- Lookup in an insertion-ordered association list (JS `Map.get`). -/
def lookupL {α : Type} (k : Nat) : List (Nat × α) → Option α
  | [] => none
  | (k', v) :: rest => if k' = k then some v else lookupL k rest

/-- Insert or replace in an insertion-ordered association list
(JS `Map.set`). -/
def setL {α : Type} (k : Nat) (v : α) : List (Nat × α) → List (Nat × α)
  | [] => [(k, v)]
  | (k', v') :: rest => if k' = k then (k, v) :: rest else (k', v') :: setL k v rest

/-- Replace the first element satisfying `p` by its image under `f`
(mutation of the result of `Array.prototype.find`). -/
def updateFirst {α : Type} (p : α → Bool) (f : α → α) : List α → List α
  | [] => []
  | x :: xs => if p x then f x :: xs else x :: updateFirst p f xs

theorem lookupL_setL_self {α : Type} (k : Nat) (v : α) (l : List (Nat × α)) :
    lookupL k (setL k v l) = some v := by
  induction l with
  | nil => simp [setL, lookupL]
  | cons hd tl ih =>
      obtain ⟨k', v'⟩ := hd
      by_cases h : k' = k
      · simp [setL, h, lookupL]
      · simp [setL, h, lookupL, ih]

theorem lookupL_setL_ne {α : Type} (k j : Nat) (v : α) (l : List (Nat × α))
    (h : j ≠ k) : lookupL j (setL k v l) = lookupL j l := by
  induction l with
  | nil =>
      simp only [setL, lookupL]
      rw [if_neg (fun hh => h hh.symm)]
  | cons hd tl ih =>
      obtain ⟨k', v'⟩ := hd
      by_cases hk : k' = k
      · subst hk
        simp only [setL, if_pos rfl, lookupL]
        have hne : ¬ (k' = j) := fun hh => h hh.symm
        rw [if_neg hne, if_neg hne]
      · by_cases hj : k' = j
        · subst hj
          simp [setL, hk, lookupL]
        · simp [setL, hk, lookupL, hj, ih]

theorem find?_updateFirst {α : Type} (p : α → Bool) (f : α → α)
    (hf : ∀ x, p (f x) = p x) (l : List α) :
    (updateFirst p f l).find? p = (l.find? p).map f := by
  induction l with
  | nil => simp [updateFirst]
  | cons x xs ih =>
      by_cases h : p x
      · simp [updateFirst, h, List.find?_cons, hf]
      · simp only [updateFirst, h, if_neg, Bool.false_eq_true, not_false_iff]
        rw [List.find?_cons, List.find?_cons]
        simp only [h]
        exact ih

theorem length_updateFirst {α : Type} (p : α → Bool) (f : α → α)
    (l : List α) : (updateFirst p f l).length = l.length := by
  induction l with
  | nil => rfl
  | cons x xs ih =>
      by_cases h : p x
      · simp [updateFirst, h]
      · simp [updateFirst, h, ih]

theorem filter_not_updateFirst {α : Type} (p : α → Bool) (f : α → α)
    (hf : ∀ x, p (f x) = p x) (l : List α) :
    (updateFirst p f l).filter (fun x => !p x) = l.filter (fun x => !p x) := by
  induction l with
  | nil => simp [updateFirst]
  | cons x xs ih =>
      by_cases h : p x
      · simp [updateFirst, h, List.filter_cons, hf]
      · simp [updateFirst, h, List.filter_cons, ih]

/-! State of the in-memory implementation (`MemStorage`): one field per JS
`Map`, plus the id supply and the current clock. -/

/-- State of `MemStorage`: `users`, `conversations` and `friendRequests`
hold the map values in insertion order; `participants` and `messages` are
keyed by conversation id. -/
structure MemState where
  users : List User
  conversations : List Conversation
  participants : List (Nat × List Participant)
  messages : List (Nat × List Message)
  friendRequests : List FriendRequest
  nextId : Nat
  now : Nat
  deriving DecidableEq, Repr

/-- State of `DatabaseStorage`: flat tables in row-insertion order. -/
structure DBState where
  users : List User
  conversations : List Conversation
  participants : List Participant
  messages : List Message
  friendRequests : List FriendRequest
  nextId : Nat
  now : Nat
  deriving DecidableEq, Repr

/-- Participant rows of a conversation in the in-memory store
(`this.conversationParticipants.get(conversationId) || []`). -/
def memParticipantsOf (s : MemState) (cid : Nat) : List Participant :=
  (lookupL cid s.participants).getD []

/-- Message rows of a conversation in the in-memory store
(`this.messages.get(conversationId) || []`). -/
def memMessagesOf (s : MemState) (cid : Nat) : List Message :=
  (lookupL cid s.messages).getD []

/-- `MemStorage.getUnreadCount`: find the caller's membership row; when
absent return 0; otherwise count the conversation's messages strictly newer
than the watermark (`lastReadAt || new Date(0)`), system messages
included. -/
def mem_getUnreadCount (s : MemState) (u cid : Nat) : Nat :=
  match (memParticipantsOf s cid).find? (fun p => p.userId == u) with
  | none => 0
  | some p =>
      (memMessagesOf s cid).countP (fun m => decide (p.lastReadAt.getD 0 < m.createdAt))

/-- `MemStorage.markConversationAsRead`: set the caller's membership row's
`lastReadAt` to now; rows of other users and other conversations are
untouched; when the caller has no row nothing changes. -/
def mem_markConversationAsRead (s : MemState) (u cid : Nat) : MemState :=
  let ps := memParticipantsOf s cid
  if ps.any (fun p => p.userId == u) then
    let ps' := updateFirst (fun p => p.userId == u)
      (fun p => { p with lastReadAt := some s.now }) ps
    { s with participants := setL cid ps' s.participants }
  else s

/-- `DatabaseStorage.getUnreadCount`: select the first membership row for
(user, conversation); when absent return 0; otherwise count messages of the
conversation with `createdAt > lastReadAt` (SQL comparison against a NULL
watermark is never true, hence 0 on a NULL `last_read_at`). -/
def db_getUnreadCount (d : DBState) (u cid : Nat) : Nat :=
  match d.participants.find? (fun p => p.userId == u && p.conversationId == cid) with
  | none => 0
  | some p =>
      match p.lastReadAt with
      | none => 0
      | some w =>
          d.messages.countP (fun m => m.conversationId == cid && decide (w < m.createdAt))

/-- `DatabaseStorage.markConversationAsRead`: SQL UPDATE setting
`last_read_at = now()` on every membership row matching
(user, conversation). -/
def db_markConversationAsRead (d : DBState) (u cid : Nat) : DBState :=
  { d with participants := d.participants.map (fun p =>
      if p.userId == u && p.conversationId == cid then
        { p with lastReadAt := some d.now } else p) }

/-- Payload accepted by `createMessage` (`InsertMessage`); the route for
user messages supplies a sender, the friendship-acceptance path supplies
none and sets `isSystem`. -/
structure InsertMessage where
  conversationId : Nat
  senderId : Option Nat
  content : String
  isSystem : Bool
  deriving DecidableEq, Repr

/-- `MemStorage.getUserById` (`this.users.get(id)`). -/
def mem_getUserById (s : MemState) (u : Nat) : Option User :=
  s.users.find? (fun x => x.id == u)

/-- `MemStorage.addParticipant`: push a fresh membership row (with
`lastReadAt` initialised to now) onto the conversation's row list. -/
def mem_addParticipant (s : MemState) (cid u : Nat) : MemState :=
  let rows := memParticipantsOf s cid
  let row : Participant :=
    { id := s.nextId, conversationId := cid, userId := u,
      joinedAt := s.now, lastReadAt := some s.now }
  { s with participants := setL cid (rows ++ [row]) s.participants,
           nextId := s.nextId + 1 }

/-- Loop adding one membership row per listed user id, in order. -/
def addParticipants (s : MemState) (cid : Nat) (us : List Nat) : MemState :=
  us.foldl (fun st uid => mem_addParticipant st cid uid) s

/-- `MemStorage.createConversation`: insert the conversation row, then add
the creator and every listed participant (in that order, no
deduplication). -/
def mem_createConversation (s : MemState) (req : CreateConversationRequest)
    (creatorId : Nat) : Conversation × MemState :=
  let cv : Conversation :=
    { id := s.nextId, name := req.name, isGroup := req.isGroup,
      createdAt := s.now, lastMessageAt := some s.now }
  let s1 := { s with conversations := s.conversations ++ [cv], nextId := s.nextId + 1 }
  let s2 := mem_addParticipant s1 cv.id creatorId
  (cv, addParticipants s2 cv.id req.participantIds)

/-- Loop predicate of `MemStorage.findOrCreatePrivateConversation`: a
non-group conversation whose membership rows list exactly two user ids,
among which both arguments occur. -/
def privateMatch (s : MemState) (a b : Nat) (cv : Conversation) : Bool :=
  !cv.isGroup &&
    (let userIds := (memParticipantsOf s cv.id).map (·.userId)
     userIds.length == 2 && userIds.contains a && userIds.contains b)

/-- `MemStorage.findOrCreatePrivateConversation`: scan all conversations in
insertion order for a private conversation of the pair; otherwise create
one with the first argument as creator and the second as the sole listed
participant. -/
def mem_findOrCreatePrivateConversation (s : MemState) (a b : Nat) :
    Conversation × MemState :=
  match s.conversations.find? (privateMatch s a b) with
  | some cv => (cv, s)
  | none =>
      mem_createConversation s
        { participantIds := [b], isGroup := false, name := none } a

/-- Sender-resolution loop shared by both `getMessagesByConversationId`
implementations: system messages are kept with no sender; ordinary messages
are kept with their resolved sender and silently dropped when the sender
cannot be resolved. -/
def resolveSenders (us : List User) : List Message → List MessageWithSender
  | [] => []
  | m :: rest =>
      if m.isSystem then
        { msg := m, sender := none } :: resolveSenders us rest
      else
        match m.senderId >>= (fun sid => us.find? (fun x => x.id == sid)) with
        | some u => { msg := m, sender := some u } :: resolveSenders us rest
        | none => resolveSenders us rest

/-- `MemStorage.getMessagesByConversationId`: take the final `limit` stored
messages (`Array.slice(-limit)`, which returns the whole array when
`limit = 0`) and resolve senders. -/
def mem_getMessagesByConversationId (s : MemState) (cid limitN : Nat) :
    List MessageWithSender :=
  let ms := memMessagesOf s cid
  let limited := if limitN = 0 then ms else ms.drop (ms.length - limitN)
  resolveSenders s.users limited

/-- `MemStorage.updateConversationLastMessage`: bump `lastMessageAt` of the
conversation to now (no-op when the conversation does not exist). -/
def mem_updateConversationLastMessage (s : MemState) (cid : Nat) : MemState :=
  { s with conversations := (updateFirst (fun c => c.id == cid)
      (fun c => { c with lastMessageAt := some s.now }) s.conversations) }

/-- `MemStorage.createMessage`: append a fresh message row to the
conversation's log, bump the conversation's last-activity timestamp, and
return the message with its resolved sender (none for system messages). -/
def mem_createMessage (s : MemState) (data : InsertMessage) :
    MessageWithSender × MemState :=
  let m : Message :=
    { id := s.nextId, conversationId := data.conversationId,
      senderId := data.senderId, content := data.content,
      isSystem := data.isSystem, createdAt := s.now }
  let ms := memMessagesOf s data.conversationId
  let s1 := { s with messages := setL data.conversationId (ms ++ [m]) s.messages,
                     nextId := s.nextId + 1 }
  let s2 := mem_updateConversationLastMessage s1 data.conversationId
  if m.isSystem then ({ msg := m, sender := none }, s2)
  else
    match data.senderId >>= (fun sid => mem_getUserById s2 sid) with
    | some u => ({ msg := m, sender := some u }, s2)
    | none => ({ msg := m, sender := none }, s2)

/-- Pair predicate of `sendFriendRequest`: an existing record between the
two users in either direction. -/
def pairRequestMatch (senderId receiverId : Nat) (r : FriendRequest) : Bool :=
  (r.senderId == senderId && r.receiverId == receiverId) ||
  (r.senderId == receiverId && r.receiverId == senderId)

/-- `MemStorage.sendFriendRequest`: reuse an existing record between the
pair (a rejected one is repurposed in place to a fresh pending request with
the same id; other statuses are returned unchanged); otherwise insert a new
pending record. -/
def mem_sendFriendRequest (s : MemState) (senderId receiverId : Nat) :
    FriendRequest × MemState :=
  match s.friendRequests.find? (pairRequestMatch senderId receiverId) with
  | some existing =>
      if existing.status = FRStatus.rejected then
        let updated : FriendRequest :=
          { existing with status := FRStatus.pending, senderId := senderId,
                          receiverId := receiverId, createdAt := s.now }
        (updated, { s with friendRequests := (updateFirst
            (fun r => r.id == existing.id) (fun _ => updated)
            s.friendRequests) })
      else (existing, s)
  | none =>
      let req : FriendRequest :=
        { id := s.nextId, senderId := senderId, receiverId := receiverId,
          status := FRStatus.pending, createdAt := s.now }
      (req, { s with friendRequests := s.friendRequests ++ [req],
                     nextId := s.nextId + 1 })

/-- `MemStorage.updateFriendRequestStatus`: set the status of the record
with the given id (no-op when absent). -/
def mem_updateFriendRequestStatus (s : MemState) (requestId : Nat)
    (st : FRStatus) : MemState :=
  { s with friendRequests := (updateFirst (fun r => r.id == requestId)
      (fun r => { r with status := st }) s.friendRequests) }

/-- `MemStorage.getFriendRequestById`. -/
def mem_getFriendRequestById (s : MemState) (requestId : Nat) :
    Option FriendRequest :=
  s.friendRequests.find? (fun r => r.id == requestId)

/-! Operations of `DatabaseStorage`, modelled over the flat tables; SQL
SELECTs scan rows in table order, UPDATEs rewrite every matching row. -/

/-- `DatabaseStorage.getUserById`. -/
def db_getUserById (d : DBState) (u : Nat) : Option User :=
  d.users.find? (fun x => x.id == u)

/-- `DatabaseStorage.getConversationById`. -/
def db_getConversationById (d : DBState) (cid : Nat) : Option Conversation :=
  d.conversations.find? (fun c => c.id == cid)

/-- `DatabaseStorage.getConversationParticipants`: the distinct users whose
id occurs among the conversation's membership rows. -/
def db_getConversationParticipants (d : DBState) (cid : Nat) : List User :=
  let userIds := (d.participants.filter (fun p => p.conversationId == cid)).map
    (fun p => p.userId)
  if userIds.isEmpty then []
  else d.users.filter (fun u => userIds.contains u.id)

/-- `DatabaseStorage.addParticipant`: insert one membership row
(`joined_at` and `last_read_at` take their `defaultNow()` column
defaults). -/
def db_addParticipant (d : DBState) (cid u : Nat) : DBState :=
  { d with participants := (d.participants ++
             [{ id := d.nextId, conversationId := cid, userId := u,
                joinedAt := d.now, lastReadAt := some d.now }]),
           nextId := d.nextId + 1 }

/-- First-occurrence deduplication, the iteration order of a JS `Set` built
from a list. -/
def jsSetDedupAux (seen : List Nat) : List Nat → List Nat
  | [] => []
  | x :: xs =>
      if x ∈ seen then jsSetDedupAux seen xs
      else x :: jsSetDedupAux (x :: seen) xs

/-- Deduplication keeping first occurrences (`[...new Set(l)]`). -/
def jsSetDedup (l : List Nat) : List Nat := jsSetDedupAux [] l

/-- Loop adding one membership row per listed user id, in order. -/
def db_addParticipants (d : DBState) (cid : Nat) (us : List Nat) : DBState :=
  us.foldl (fun st uid => db_addParticipant st cid uid) d

/-- `DatabaseStorage.createConversation`: insert the conversation row, then
add one membership row per element of
`[...new Set([...participantIds, creatorId])]`. -/
def db_createConversation (d : DBState) (req : CreateConversationRequest)
    (creatorId : Nat) : Conversation × DBState :=
  let cv : Conversation :=
    { id := d.nextId, name := req.name, isGroup := req.isGroup,
      createdAt := d.now, lastMessageAt := some d.now }
  let d1 := { d with conversations := d.conversations ++ [cv], nextId := d.nextId + 1 }
  (cv, db_addParticipants d1 cv.id (jsSetDedup (req.participantIds ++ [creatorId])))

/-- Conversation ids of a user's membership rows
(`userNConversations.map(p => p.conversationId)`). -/
def db_userConvIds (d : DBState) (u : Nat) : List Nat :=
  (d.participants.filter (fun p => p.userId == u)).map
    (fun p => p.conversationId)

/-- Conversation ids common to both users, in the second user's membership
order (`commonConvIds`). -/
def db_commonConvIds (d : DBState) (a b : Nat) : List Nat :=
  (db_userConvIds d b).filter (fun cid => (db_userConvIds d a).contains cid)

/-- Loop body of `DatabaseStorage.findOrCreatePrivateConversation`: return
the conversation when it exists, is non-group and has exactly two resolved
participants. -/
def db_privateProbe (d : DBState) (cid : Nat) : Option Conversation :=
  match db_getConversationById d cid with
  | some cv =>
      if !cv.isGroup && (db_getConversationParticipants d cid).length == 2
      then some cv else none
  | none => none

/-- `DatabaseStorage.findOrCreatePrivateConversation`: intersect the two
users' conversation ids (in the second user's membership order), return the
first non-group conversation among them with exactly two resolved
participants, else create one. -/
def db_findOrCreatePrivateConversation (d : DBState) (a b : Nat) :
    Conversation × DBState :=
  match (db_commonConvIds d a b).findSome? (db_privateProbe d) with
  | some cv => (cv, d)
  | none =>
      db_createConversation d
        { participantIds := [b], isGroup := false, name := none } a

/-- Insertion step of the `ORDER BY created_at DESC` model: place the new
row after every row with a greater-or-equal timestamp. -/
def insertDesc (m : Message) : List Message → List Message
  | [] => [m]
  | x :: xs =>
      if m.createdAt ≤ x.createdAt then x :: insertDesc m xs
      else m :: x :: xs

/-- Sort newest-first by creation timestamp (`ORDER BY created_at DESC`). -/
def sortDesc (l : List Message) : List Message := l.foldr insertDesc []

/-- `DatabaseStorage.getMessagesByConversationId`: fetch the conversation's
messages newest-first with a LIMIT, reverse them, and resolve senders. -/
def db_getMessagesByConversationId (d : DBState) (cid limitN : Nat) :
    List MessageWithSender :=
  let ms := (sortDesc (d.messages.filter (fun m => m.conversationId == cid))).take limitN
  resolveSenders d.users ms.reverse

/-- `DatabaseStorage.sendFriendRequest`: same logic as the in-memory
implementation; the rejected-record branch UPDATEs the existing row in
place (same id). -/
def db_sendFriendRequest (d : DBState) (senderId receiverId : Nat) :
    FriendRequest × DBState :=
  match d.friendRequests.find? (pairRequestMatch senderId receiverId) with
  | some existing =>
      if existing.status = FRStatus.rejected then
        let updated : FriendRequest :=
          { existing with status := FRStatus.pending, senderId := senderId,
                          receiverId := receiverId, createdAt := d.now }
        (updated, { d with friendRequests := (d.friendRequests.map
            (fun r => if r.id == existing.id then updated else r)) })
      else (existing, d)
  | none =>
      let req : FriendRequest :=
        { id := d.nextId, senderId := senderId, receiverId := receiverId,
          status := FRStatus.pending, createdAt := d.now }
      (req, { d with friendRequests := d.friendRequests ++ [req],
                     nextId := d.nextId + 1 })

/-- `DatabaseStorage.updateFriendRequestStatus`: UPDATE the status of every
row with the given id. -/
def db_updateFriendRequestStatus (d : DBState) (requestId : Nat)
    (st : FRStatus) : DBState :=
  { d with friendRequests := (d.friendRequests.map
      (fun r => if r.id == requestId then { r with status := st } else r)) }

/-! Route handler `PATCH /api/friends/requests/:id` from `server/routes.ts`,
run against the in-memory storage implementation. -/

/-- HTTP outcome of the update-friend-request route. -/
inductive UpdateResult
  | notFound
  | forbidden
  | ok
  deriving DecidableEq, Repr

/-- PATCH update-friend-request handler: look the request up (404 when
absent), reject callers other than the receiver (403, no state change),
otherwise set the status; on acceptance additionally find-or-create the
pair's private conversation and append the system message
"You both are friends now" to it. -/
def patchFriendRequestHandler (s : MemState) (callerId requestId : Nat)
    (st : FRStatus) : UpdateResult × MemState :=
  match mem_getFriendRequestById s requestId with
  | none => (UpdateResult.notFound, s)
  | some req =>
      if req.receiverId ≠ callerId then (UpdateResult.forbidden, s)
      else
        let s1 := mem_updateFriendRequestStatus s requestId st
        if st = FRStatus.accepted then
          let r2 := mem_findOrCreatePrivateConversation s1 req.receiverId req.senderId
          let r3 := mem_createMessage r2.2
            { conversationId := r2.1.id, senderId := none,
              content := "You both are friends now", isSystem := true }
          (UpdateResult.ok, r3.2)
        else (UpdateResult.ok, s1)

/-! Typing-indicator protocol of the socket gateway, for one fixed
(user, conversation) key.  A run is the chronological list of the client's
`typing` events (flag, timestamp); the server state is the optional
deadline of the pending 3-second timer.  Processing a client event first
fires a pending timer whose deadline lies strictly before the event (the
event loop runs the timeout callback first), then clears any remaining
timer (`clearTimeout`), re-broadcasts the flag, and re-arms the timer iff
the flag is true; a timer still pending when the run ends eventually
fires. -/

/-- Emission of the typing handler towards the other room members: `echo b`
is the re-broadcast of a client flag, `auto` the synthetic
`isTyping = false` produced by the 3-second timeout. -/
inductive TypingEmit
  | echo (isTyping : Bool)
  | auto
  deriving DecidableEq, Repr

/-- Emissions produced while processing the remaining client events, given
the current pending-timer deadline. -/
def runTypingAux (timer : Option Nat) : List (Bool × Nat) → List TypingEmit
  | [] => match timer with
          | some _ => [TypingEmit.auto]
          | none => []
  | (b, t) :: rest =>
      let fired := match timer with
                   | some dl => if dl < t then [TypingEmit.auto] else []
                   | none => []
      fired ++ TypingEmit.echo b ::
        runTypingAux (if b then some (t + 3000) else none) rest

/-- Complete emission trace of the typing handler over one client-event
run, starting with no pending timer. -/
def runTyping (evs : List (Bool × Nat)) : List TypingEmit :=
  runTypingAux none evs

/-! Well-formedness invariants tying the id supply to the stored rows;
`MemStorage` and the database establish them by construction (every id is
drawn from the supply, foreign keys are enforced by the schema). -/

/-- Well-formedness of an in-memory state: every conversation id and every
map key was drawn from the id supply. -/
def MemWF (s : MemState) : Prop :=
  (∀ c ∈ s.conversations, c.id < s.nextId) ∧
  (∀ kv ∈ s.participants, kv.1 < s.nextId) ∧
  (∀ kv ∈ s.messages, kv.1 < s.nextId)

/-- Well-formedness of a database state: ids below the supply, distinct
user ids, and the membership → users foreign key. -/
def DBWF (d : DBState) : Prop :=
  (∀ c ∈ d.conversations, c.id < d.nextId) ∧
  (∀ p ∈ d.participants, p.conversationId < d.nextId) ∧
  (d.users.map User.id).Nodup ∧
  (∀ p ∈ d.participants, p.userId ∈ d.users.map User.id)

instance (s : MemState) : Decidable (MemWF s) := by
  unfold MemWF; infer_instance

instance (d : DBState) : Decidable (DBWF d) := by
  unfold DBWF; infer_instance

/-! Generic helper lemmas about the translated operations. -/

theorem updateFirst_of_forall_not {α : Type} (p : α → Bool) (f : α → α)
    (l : List α) (h : ∀ x ∈ l, ¬ p x = true) : updateFirst p f l = l := by
  induction l with
  | nil => rfl
  | cons x xs ih =>
      have hx := h x (by simp)
      simp [updateFirst, hx, ih (fun y hy => h y (by simp [hy]))]

theorem mem_markRead_participants (s : MemState) (u cid : Nat) :
    memParticipantsOf (mem_markConversationAsRead s u cid) cid
      = updateFirst (fun p => p.userId == u)
          (fun p => { p with lastReadAt := some s.now })
          (memParticipantsOf s cid) := by
  unfold mem_markConversationAsRead
  by_cases hany : (memParticipantsOf s cid).any (fun p => p.userId == u) = true
  · simp only [hany, if_true]
    unfold memParticipantsOf
    simp [lookupL_setL_self]
  · simp only [hany, if_false, Bool.false_eq_true]
    rw [updateFirst_of_forall_not]
    intro x hx
    intro hpx
    exact hany (List.any_eq_true.mpr ⟨x, hx, hpx⟩)

theorem mem_markRead_lookup_ne (s : MemState) (u cid k : Nat) (h : k ≠ cid) :
    lookupL k (mem_markConversationAsRead s u cid).participants
      = lookupL k s.participants := by
  unfold mem_markConversationAsRead
  by_cases hany : (memParticipantsOf s cid).any (fun p => p.userId == u) = true
  · simp only [hany, if_true]
    exact lookupL_setL_ne cid k _ s.participants h
  · simp [hany]

theorem mem_markRead_messages (s : MemState) (u cid : Nat) :
    (mem_markConversationAsRead s u cid).messages = s.messages := by
  unfold mem_markConversationAsRead
  by_cases hany : (memParticipantsOf s cid).any (fun p => p.userId == u) = true
  · simp [hany]
  · simp [hany]

theorem find?_map_ite {α : Type} (p : α → Bool) (f : α → α)
    (hf : ∀ x, p (f x) = p x) (l : List α) :
    (l.map (fun x => if p x then f x else x)).find? p = (l.find? p).map f := by
  induction l with
  | nil => simp
  | cons x xs ih =>
      cases hx : p x with
      | true =>
          simp only [List.map_cons, hx, if_true]
          rw [List.find?_cons, List.find?_cons]
          simp [hf, hx]
      | false =>
          simp only [List.map_cons, hx, Bool.false_eq_true, if_false]
          rw [List.find?_cons, List.find?_cons]
          simp only [hx, hf]
          exact ih

theorem filter_not_map_ite {α : Type} (p : α → Bool) (f : α → α)
    (hf : ∀ x, p (f x) = p x) (l : List α) :
    (l.map (fun x => if p x then f x else x)).filter (fun x => !p x)
      = l.filter (fun x => !p x) := by
  induction l with
  | nil => simp
  | cons x xs ih =>
      cases hx : p x with
      | true =>
          simp only [List.map_cons, hx, if_true]
          rw [List.filter_cons, List.filter_cons]
          simp [hf, hx, ih]
      | false =>
          simp only [List.map_cons, hx, Bool.false_eq_true, if_false]
          rw [List.filter_cons, List.filter_cons]
          simp [hx, ih]

/-! Concrete states used by the witness theorems. -/

/-- Sample membership row: user 1 in conversation 0, watermark 1. -/
def exRowA : Participant :=
  { id := 5, conversationId := 0, userId := 1, joinedAt := 0, lastReadAt := some 1 }

/-- Sample message in conversation 0. -/
def sampleMsg (i t : Nat) (sys : Bool) : Message :=
  { id := i, conversationId := 0, senderId := none, content := "m",
    isSystem := sys, createdAt := t }

/-- Sample in-memory state: conversation 0 with participant row `exRowA`
and three messages at times 1, 2, 3 (one ordinary, two system). -/
def exMemA : MemState :=
  { users := [], conversations := [], participants := [(0, [exRowA])],
    messages := [(0, [sampleMsg 1 1 true, sampleMsg 2 2 false, sampleMsg 3 3 true])],
    friendRequests := [], nextId := 20, now := 100 }

/-- Sample database state mirroring `exMemA`. -/
def exDbA : DBState :=
  { users := [], conversations := [], participants := [exRowA],
    messages := [sampleMsg 1 1 true, sampleMsg 2 2 false, sampleMsg 3 3 true],
    friendRequests := [], nextId := 20, now := 100 }

/-- C1: for a participant P of conversation C whose membership row carries
watermark w, `getUnreadCount(P, C)` equals the number of messages of C with
creation timestamp strictly greater than w — system messages counted like
ordinary ones — in both storage implementations. -/
theorem unreadCount_counts_messages_after_watermark
    (s : MemState) (d : DBState) (u cid w : Nat) (p q : Participant)
    (hp : (memParticipantsOf s cid).find? (fun r => r.userId == u) = some p)
    (hw : p.lastReadAt = some w)
    (hq : d.participants.find? (fun r => r.userId == u && r.conversationId == cid)
        = some q)
    (hqw : q.lastReadAt = some w) :
    mem_getUnreadCount s u cid
      = (memMessagesOf s cid).countP (fun m => decide (w < m.createdAt)) ∧
    db_getUnreadCount d u cid
      = (d.messages.filter (fun m => m.conversationId == cid)).countP
          (fun m => decide (w < m.createdAt)) := by
  constructor
  · unfold mem_getUnreadCount
    rw [hp]
    show (memMessagesOf s cid).countP
        (fun m => decide (p.lastReadAt.getD 0 < m.createdAt)) = _
    rw [hw]
    simp only [Option.getD_some]
  · unfold db_getUnreadCount
    rw [hq]
    show (match q.lastReadAt with
          | none => 0
          | some w => d.messages.countP
              (fun m : Message => m.conversationId == cid && decide (w < m.createdAt))) = _
    rw [hqw]
    show d.messages.countP
        (fun m : Message => m.conversationId == cid && decide (w < m.createdAt)) = _
    rw [List.countP_filter]
    refine List.countP_congr ?_
    intro m _
    constructor
    · intro h
      rw [Bool.and_eq_true] at h ⊢
      exact ⟨h.2, h.1⟩
    · intro h
      rw [Bool.and_eq_true] at h ⊢
      exact ⟨h.2, h.1⟩

/-- C1 witness: both implementations evaluated on the concrete states. -/
theorem unreadCount_counts_messages_after_watermark_witness :
    mem_getUnreadCount exMemA 1 0
      = (memMessagesOf exMemA 0).countP (fun m => decide (1 < m.createdAt)) ∧
    db_getUnreadCount exDbA 1 0
      = (exDbA.messages.filter (fun m => m.conversationId == 0)).countP
          (fun m => decide (1 < m.createdAt)) :=
  unreadCount_counts_messages_after_watermark exMemA exDbA 1 0 1 exRowA exRowA
    (by decide) (by decide) (by decide) (by decide)

/-- C10: for a user with no membership row for the conversation,
`getUnreadCount` returns 0 rather than failing, in both storage
implementations. -/
theorem unreadCount_zero_when_not_participant
    (s : MemState) (d : DBState) (u cid : Nat)
    (hm : ∀ p ∈ memParticipantsOf s cid, p.userId ≠ u)
    (hd : ∀ p ∈ d.participants, ¬(p.userId = u ∧ p.conversationId = cid)) :
    mem_getUnreadCount s u cid = 0 ∧ db_getUnreadCount d u cid = 0 := by
  constructor
  · unfold mem_getUnreadCount
    have h : (memParticipantsOf s cid).find? (fun p => p.userId == u) = none :=
      List.find?_eq_none.mpr (fun p hp => by simpa using hm p hp)
    rw [h]
  · unfold db_getUnreadCount
    have h : d.participants.find?
        (fun p => p.userId == u && p.conversationId == cid) = none :=
      List.find?_eq_none.mpr (fun p hp => by
        simpa [Bool.and_eq_true, not_and] using hd p hp)
    rw [h]

/-- C10 witness: user 9 is not a participant of conversation 0. -/
theorem unreadCount_zero_when_not_participant_witness :
    mem_getUnreadCount exMemA 9 0 = 0 ∧ db_getUnreadCount exDbA 9 0 = 0 :=
  unreadCount_zero_when_not_participant exMemA exDbA 9 0 (by decide) (by decide)

/-- C2: given that every stored message of the conversation is not newer
than the clock, `markConversationAsRead(P, C)` makes `getUnreadCount(P, C)`
zero immediately afterwards, leaves every membership row of other users of
C untouched, and leaves the rows of every other conversation untouched — in
both storage implementations. -/
theorem markRead_zeroes_unread_and_is_framed
    (s : MemState) (d : DBState) (u cid : Nat)
    (hmsg : ∀ m ∈ memMessagesOf s cid, m.createdAt ≤ s.now)
    (hdmsg : ∀ m ∈ d.messages, m.conversationId = cid → m.createdAt ≤ d.now) :
    mem_getUnreadCount (mem_markConversationAsRead s u cid) u cid = 0 ∧
    (∀ k, k ≠ cid → lookupL k (mem_markConversationAsRead s u cid).participants
        = lookupL k s.participants) ∧
    (memParticipantsOf (mem_markConversationAsRead s u cid) cid).filter
        (fun p => !(p.userId == u))
      = (memParticipantsOf s cid).filter (fun p => !(p.userId == u)) ∧
    db_getUnreadCount (db_markConversationAsRead d u cid) u cid = 0 ∧
    (db_markConversationAsRead d u cid).participants.filter
        (fun p => !(p.userId == u && p.conversationId == cid))
      = d.participants.filter
          (fun p => !(p.userId == u && p.conversationId == cid)) := by
  refine ⟨?_, ?_, ?_, ?_, ?_⟩
  · unfold mem_getUnreadCount
    rw [mem_markRead_participants,
        find?_updateFirst (fun p => p.userId == u)
          (fun p => { p with lastReadAt := some s.now }) (fun x => rfl)
          (memParticipantsOf s cid)]
    have hmm : memMessagesOf (mem_markConversationAsRead s u cid) cid
        = memMessagesOf s cid := by
      unfold memMessagesOf
      rw [mem_markRead_messages]
    simp only [hmm]
    cases hf : (memParticipantsOf s cid).find? (fun p => p.userId == u) with
    | none => rfl
    | some p =>
        show (memMessagesOf s cid).countP
            (fun m => decide (s.now < m.createdAt)) = 0
        refine List.countP_eq_zero.mpr ?_
        intro m hm hcontra
        simp only [decide_eq_true_eq] at hcontra
        exact absurd hcontra (not_lt.mpr (hmsg m hm))
  · intro k hk
    exact mem_markRead_lookup_ne s u cid k hk
  · rw [mem_markRead_participants]
    exact filter_not_updateFirst (fun p => p.userId == u)
      (fun p => { p with lastReadAt := some s.now }) (fun x => rfl)
      (memParticipantsOf s cid)
  · unfold db_getUnreadCount db_markConversationAsRead
    dsimp only
    rw [find?_map_ite (fun p => p.userId == u && p.conversationId == cid)
          (fun p => { p with lastReadAt := some d.now }) (fun x => rfl)
          d.participants]
    cases hf : d.participants.find?
        (fun p => p.userId == u && p.conversationId == cid) with
    | none => rfl
    | some q =>
        show d.messages.countP
            (fun m => m.conversationId == cid && decide (d.now < m.createdAt)) = 0
        refine List.countP_eq_zero.mpr ?_
        intro m hm hcontra
        rw [Bool.and_eq_true] at hcontra
        have hc : m.conversationId = cid := by simpa using hcontra.1
        have hlt : d.now < m.createdAt := by simpa using hcontra.2
        exact absurd hlt (not_lt.mpr (hdmsg m hm hc))
  · unfold db_markConversationAsRead
    exact filter_not_map_ite (fun p => p.userId == u && p.conversationId == cid)
      (fun p => { p with lastReadAt := some d.now }) (fun x => rfl)
      d.participants

/-- C2 witness: mark conversation 0 read for user 1 on the concrete
states. -/
theorem markRead_zeroes_unread_and_is_framed_witness :
    mem_getUnreadCount (mem_markConversationAsRead exMemA 1 0) 1 0 = 0 ∧
    (∀ k, k ≠ 0 → lookupL k (mem_markConversationAsRead exMemA 1 0).participants
        = lookupL k exMemA.participants) ∧
    (memParticipantsOf (mem_markConversationAsRead exMemA 1 0) 0).filter
        (fun p => !(p.userId == 1))
      = (memParticipantsOf exMemA 0).filter (fun p => !(p.userId == 1)) ∧
    db_getUnreadCount (db_markConversationAsRead exDbA 1 0) 1 0 = 0 ∧
    (db_markConversationAsRead exDbA 1 0).participants.filter
        (fun p => !(p.userId == 1 && p.conversationId == 0))
      = exDbA.participants.filter
          (fun p => !(p.userId == 1 && p.conversationId == 0)) :=
  markRead_zeroes_unread_and_is_framed exMemA exDbA 1 0 (by decide) (by decide)

/-! Lemmas about `jsSetDedup` and the participant-adding loops. -/

theorem jsSetDedupAux_mem (l : List Nat) : ∀ (seen : List Nat) (x : Nat),
    x ∈ jsSetDedupAux seen l ↔ x ∈ l ∧ x ∉ seen := by
  induction l with
  | nil => intro seen x; simp [jsSetDedupAux]
  | cons y ys ih =>
      intro seen x
      by_cases hy : y ∈ seen
      · simp only [jsSetDedupAux]
        rw [if_pos hy, ih seen x]
        constructor
        · rintro ⟨hxy, hxs⟩
          exact ⟨List.mem_cons_of_mem _ hxy, hxs⟩
        · rintro ⟨hxy, hxs⟩
          rcases List.mem_cons.mp hxy with rfl | hmem
          · exact absurd hy hxs
          · exact ⟨hmem, hxs⟩
      · simp only [jsSetDedupAux]
        rw [if_neg hy]
        constructor
        · intro hx
          rcases List.mem_cons.mp hx with rfl | hmem
          · exact ⟨List.mem_cons_self _ _, hy⟩
          · obtain ⟨h1, h2⟩ := (ih (y :: seen) x).mp hmem
            exact ⟨List.mem_cons_of_mem _ h1,
              fun hxs => h2 (List.mem_cons_of_mem _ hxs)⟩
        · rintro ⟨hxy, hxs⟩
          rcases List.mem_cons.mp hxy with rfl | hmem
          · exact List.mem_cons_self _ _
          · by_cases hxy2 : x = y
            · subst hxy2
              exact List.mem_cons_self _ _
            · refine List.mem_cons_of_mem _ ((ih (y :: seen) x).mpr ⟨hmem, ?_⟩)
              simp [List.mem_cons, hxy2, hxs]

theorem jsSetDedupAux_nodup (l : List Nat) : ∀ seen : List Nat,
    (jsSetDedupAux seen l).Nodup := by
  induction l with
  | nil => intro seen; simp [jsSetDedupAux]
  | cons y ys ih =>
      intro seen
      by_cases hy : y ∈ seen
      · simp only [jsSetDedupAux]
        rw [if_pos hy]
        exact ih seen
      · simp only [jsSetDedupAux]
        rw [if_neg hy]
        refine List.nodup_cons.mpr ⟨?_, ih (y :: seen)⟩
        intro hmem
        exact ((jsSetDedupAux_mem ys (y :: seen) y).mp hmem).2
          (List.mem_cons_self _ _)

theorem jsSetDedupAux_eq_self (l : List Nat) : ∀ seen : List Nat,
    l.Nodup → (∀ x ∈ l, x ∉ seen) → jsSetDedupAux seen l = l := by
  induction l with
  | nil => intro seen _ _; rfl
  | cons y ys ih =>
      intro seen hnd hdisj
      simp only [jsSetDedupAux]
      rw [if_neg (hdisj y (List.mem_cons_self _ _))]
      congr 1
      refine ih (y :: seen) (List.nodup_cons.mp hnd).2 ?_
      intro x hx hmem
      rcases List.mem_cons.mp hmem with rfl | hmem2
      · exact (List.nodup_cons.mp hnd).1 hx
      · exact hdisj x (List.mem_cons_of_mem _ hx) hmem2

theorem jsSetDedup_mem (l : List Nat) (x : Nat) :
    x ∈ jsSetDedup l ↔ x ∈ l := by
  unfold jsSetDedup
  rw [jsSetDedupAux_mem]
  simp

theorem jsSetDedup_nodup (l : List Nat) : (jsSetDedup l).Nodup :=
  jsSetDedupAux_nodup l []

theorem jsSetDedup_eq_self (l : List Nat) (h : l.Nodup) : jsSetDedup l = l :=
  jsSetDedupAux_eq_self l [] h (by simp)

theorem lookupL_eq_none_of_lt {α : Type} (l : List (Nat × α)) (k : Nat)
    (h : ∀ kv ∈ l, kv.1 < k) : lookupL k l = none := by
  induction l with
  | nil => rfl
  | cons hd tl ih =>
      obtain ⟨k', v⟩ := hd
      have hk : k' < k := h (k', v) (List.mem_cons_self _ _)
      simp only [lookupL]
      rw [if_neg (Nat.ne_of_lt hk)]
      exact ih (fun kv hkv => h kv (List.mem_cons_of_mem _ hkv))

theorem memParticipantsOf_addParticipant_self (s : MemState) (cid u : Nat) :
    memParticipantsOf (mem_addParticipant s cid u) cid
      = memParticipantsOf s cid ++
        [{ id := s.nextId, conversationId := cid, userId := u,
           joinedAt := s.now, lastReadAt := some s.now }] := by
  unfold mem_addParticipant memParticipantsOf
  dsimp only
  rw [lookupL_setL_self]
  rfl

theorem addParticipant_lookup_ne (s : MemState) (cid u k : Nat) (h : k ≠ cid) :
    lookupL k (mem_addParticipant s cid u).participants
      = lookupL k s.participants := by
  unfold mem_addParticipant
  exact lookupL_setL_ne cid k _ s.participants h

theorem addParticipants_userIds (us : List Nat) : ∀ (s : MemState) (cid : Nat),
    (memParticipantsOf (addParticipants s cid us) cid).map (fun p => p.userId)
      = (memParticipantsOf s cid).map (fun p => p.userId) ++ us := by
  induction us with
  | nil => intro s cid; simp [addParticipants]
  | cons x xs ih =>
      intro s cid
      show (memParticipantsOf (addParticipants (mem_addParticipant s cid x) cid xs) cid).map
          (fun p => p.userId) = _
      rw [ih (mem_addParticipant s cid x) cid, memParticipantsOf_addParticipant_self]
      simp

theorem addParticipants_lookup_ne (us : List Nat) : ∀ (s : MemState) (cid k : Nat),
    k ≠ cid →
    lookupL k (addParticipants s cid us).participants = lookupL k s.participants := by
  induction us with
  | nil => intro s cid k _; rfl
  | cons x xs ih =>
      intro s cid k h
      show lookupL k (addParticipants (mem_addParticipant s cid x) cid xs).participants = _
      rw [ih (mem_addParticipant s cid x) cid k h,
          addParticipant_lookup_ne s cid x k h]

theorem addParticipants_fields (us : List Nat) : ∀ s : MemState, ∀ cid : Nat,
    (addParticipants s cid us).users = s.users ∧
    (addParticipants s cid us).conversations = s.conversations ∧
    (addParticipants s cid us).messages = s.messages ∧
    (addParticipants s cid us).friendRequests = s.friendRequests ∧
    (addParticipants s cid us).now = s.now := by
  induction us with
  | nil => intro s cid; exact ⟨rfl, rfl, rfl, rfl, rfl⟩
  | cons x xs ih =>
      intro s cid
      obtain ⟨h1, h2, h3, h4, h5⟩ := ih (mem_addParticipant s cid x) cid
      exact ⟨h1, h2, h3, h4, h5⟩

theorem mem_createConversation_spec (s : MemState)
    (req : CreateConversationRequest) (creatorId : Nat) (hWF : MemWF s) :
    (mem_createConversation s req creatorId).1.id = s.nextId ∧
    (mem_createConversation s req creatorId).1.isGroup = req.isGroup ∧
    (mem_createConversation s req creatorId).2.conversations
      = s.conversations ++ [(mem_createConversation s req creatorId).1] ∧
    (memParticipantsOf (mem_createConversation s req creatorId).2
        (mem_createConversation s req creatorId).1.id).map (fun p => p.userId)
      = creatorId :: req.participantIds ∧
    (∀ k, k ≠ s.nextId →
      lookupL k (mem_createConversation s req creatorId).2.participants
        = lookupL k s.participants) ∧
    (mem_createConversation s req creatorId).2.messages = s.messages ∧
    (mem_createConversation s req creatorId).2.users = s.users ∧
    (mem_createConversation s req creatorId).2.friendRequests = s.friendRequests ∧
    (mem_createConversation s req creatorId).2.now = s.now := by
  obtain ⟨hc, hpk, hmk⟩ := hWF
  refine ⟨rfl, rfl, ?_, ?_, ?_, ?_, ?_, ?_, ?_⟩
  · exact (addParticipants_fields _ _ _).2.1
  · have hfresh : lookupL s.nextId s.participants = none :=
      lookupL_eq_none_of_lt s.participants s.nextId hpk
    show (memParticipantsOf (addParticipants
        (mem_addParticipant _ s.nextId creatorId) s.nextId req.participantIds)
        s.nextId).map (fun p => p.userId) = _
    rw [addParticipants_userIds, memParticipantsOf_addParticipant_self]
    unfold memParticipantsOf
    dsimp only
    rw [hfresh]
    rfl
  · intro k hk
    show lookupL k (addParticipants _ s.nextId req.participantIds).participants = _
    rw [addParticipants_lookup_ne _ _ _ _ hk, addParticipant_lookup_ne _ _ _ _ hk]
  · exact (addParticipants_fields _ _ _).2.2.1
  · exact (addParticipants_fields _ _ _).1
  · exact (addParticipants_fields _ _ _).2.2.2.1
  · exact (addParticipants_fields _ _ _).2.2.2.2

theorem db_addParticipants_rows (us : List Nat) : ∀ (d : DBState) (cid : Nat),
    ∃ rows : List Participant,
      (db_addParticipants d cid us).participants = d.participants ++ rows ∧
      rows.map (fun p => p.userId) = us ∧
      (∀ p ∈ rows, p.conversationId = cid) := by
  induction us with
  | nil => intro d cid; exact ⟨[], by simp [db_addParticipants], rfl, by simp⟩
  | cons x xs ih =>
      intro d cid
      obtain ⟨rows, h1, h2, h3⟩ := ih (db_addParticipant d cid x) cid
      refine ⟨{ id := d.nextId, conversationId := cid, userId := x,
                joinedAt := d.now, lastReadAt := some d.now } :: rows, ?_, ?_, ?_⟩
      · show (db_addParticipants (db_addParticipant d cid x) cid xs).participants = _
        rw [h1]
        show (d.participants ++ [_]) ++ rows = _
        rw [List.append_assoc]
        rfl
      · simp [h2]
      · intro p hp
        rcases List.mem_cons.mp hp with rfl | hmem
        · rfl
        · exact h3 p hmem

theorem db_addParticipants_fields (us : List Nat) : ∀ (d : DBState) (cid : Nat),
    (db_addParticipants d cid us).users = d.users ∧
    (db_addParticipants d cid us).conversations = d.conversations ∧
    (db_addParticipants d cid us).messages = d.messages ∧
    (db_addParticipants d cid us).friendRequests = d.friendRequests ∧
    (db_addParticipants d cid us).now = d.now := by
  induction us with
  | nil => intro d cid; exact ⟨rfl, rfl, rfl, rfl, rfl⟩
  | cons x xs ih =>
      intro d cid
      obtain ⟨h1, h2, h3, h4, h5⟩ := ih (db_addParticipant d cid x) cid
      exact ⟨h1, h2, h3, h4, h5⟩

theorem db_createConversation_spec (d : DBState)
    (req : CreateConversationRequest) (creatorId : Nat) :
    (db_createConversation d req creatorId).1.id = d.nextId ∧
    (db_createConversation d req creatorId).1.isGroup = req.isGroup ∧
    (db_createConversation d req creatorId).2.conversations
      = d.conversations ++ [(db_createConversation d req creatorId).1] ∧
    (∃ rows : List Participant,
      (db_createConversation d req creatorId).2.participants
        = d.participants ++ rows ∧
      rows.map (fun p => p.userId) = jsSetDedup (req.participantIds ++ [creatorId]) ∧
      (∀ p ∈ rows, p.conversationId = d.nextId)) ∧
    (db_createConversation d req creatorId).2.users = d.users ∧
    (db_createConversation d req creatorId).2.messages = d.messages ∧
    (db_createConversation d req creatorId).2.friendRequests = d.friendRequests ∧
    (db_createConversation d req creatorId).2.now = d.now := by
  refine ⟨rfl, rfl, ?_, ?_, ?_, ?_, ?_, ?_⟩
  · exact (db_addParticipants_fields _ _ _).2.1
  · obtain ⟨rows, h1, h2, h3⟩ :=
      db_addParticipants_rows (jsSetDedup (req.participantIds ++ [creatorId]))
        { users := d.users, conversations := d.conversations ++ [(db_createConversation d req creatorId).1], participants := d.participants, messages := d.messages, friendRequests := d.friendRequests, nextId := d.nextId + 1, now := d.now } d.nextId
    exact ⟨rows, h1, h2, h3⟩
  · exact (db_addParticipants_fields _ _ _).1
  · exact (db_addParticipants_fields _ _ _).2.2.1
  · exact (db_addParticipants_fields _ _ _).2.2.2.1
  · exact (db_addParticipants_fields _ _ _).2.2.2.2

/-! Claim C8: membership produced by `createConversation`. -/

/-- Sample empty in-memory state. -/
def exMemB : MemState :=
  { users := [], conversations := [], participants := [], messages := [],
    friendRequests := [], nextId := 0, now := 0 }

/-- Sample empty database state. -/
def exDbB : DBState :=
  { users := [], conversations := [], participants := [], messages := [],
    friendRequests := [], nextId := 0, now := 0 }

/-- Creation request listing the creator (user 1) among the participants. -/
def reqB : CreateConversationRequest :=
  { participantIds := [1], isGroup := false, name := none }

/-- C8 counterexample: with creator 1 and participant list [1] the in-memory
implementation creates two membership rows for user 1 while the database
implementation creates one, so membership is neither deduplicated in both
implementations nor the same multiset. -/
theorem createConversation_membership_counterexample :
    ((memParticipantsOf (mem_createConversation exMemB reqB 1).2
        (mem_createConversation exMemB reqB 1).1.id).map
      (fun p => p.userId)).count 1 = 2 ∧
    (((db_createConversation exDbB reqB 1).2.participants.map
      (fun p => p.userId)).count 1 = 1) := by decide

/-- C8 (amended): `DatabaseStorage.createConversation` adds one membership
row per user of `dedup(participantIds ++ [creator])` (no duplicates), while
`MemStorage.createConversation` adds the creator followed by every listed
participant verbatim; the membership sets always coincide, and the
membership multisets coincide exactly when `creator :: participantIds` has
no duplicate. -/
theorem createConversation_membership_implementations
    (s : MemState) (d : DBState) (req : CreateConversationRequest)
    (creatorId : Nat) (hWF : MemWF s) :
    (memParticipantsOf (mem_createConversation s req creatorId).2
        (mem_createConversation s req creatorId).1.id).map (fun p => p.userId)
      = creatorId :: req.participantIds ∧
    (∃ rows : List Participant,
      (db_createConversation d req creatorId).2.participants
        = d.participants ++ rows ∧
      rows.map (fun p => p.userId)
        = jsSetDedup (req.participantIds ++ [creatorId]) ∧
      (rows.map (fun p => p.userId)).Nodup) ∧
    (∀ x, x ∈ jsSetDedup (req.participantIds ++ [creatorId]) ↔
        x ∈ creatorId :: req.participantIds) ∧
    ((creatorId :: req.participantIds).Nodup →
      (jsSetDedup (req.participantIds ++ [creatorId])).Perm
        (creatorId :: req.participantIds)) := by
  refine ⟨(mem_createConversation_spec s req creatorId hWF).2.2.2.1, ?_, ?_, ?_⟩
  · obtain ⟨rows, h1, h2, _⟩ :=
      (db_createConversation_spec d req creatorId).2.2.2.1
    exact ⟨rows, h1, h2, h2 ▸ jsSetDedup_nodup _⟩
  · intro x
    rw [jsSetDedup_mem]
    simp [List.mem_append, List.mem_cons, or_comm]
  · intro hnd
    have hnd2 : (req.participantIds ++ [creatorId]).Nodup :=
      ((List.perm_append_singleton creatorId req.participantIds).nodup_iff).mpr hnd
    rw [jsSetDedup_eq_self _ hnd2]
    exact List.perm_append_singleton _ _

/-- C8 witness: the amended statement evaluated with creator 3 and
participant list [1, 2] on the empty states. -/
theorem createConversation_membership_implementations_witness :
    (memParticipantsOf
        (mem_createConversation exMemB
          { participantIds := [1, 2], isGroup := true, name := some "g" } 3).2
        (mem_createConversation exMemB
          { participantIds := [1, 2], isGroup := true, name := some "g" } 3).1.id).map
      (fun p => p.userId) = 3 :: [1, 2] ∧
    (∃ rows : List Participant,
      (db_createConversation exDbB
          { participantIds := [1, 2], isGroup := true, name := some "g" } 3).2.participants
        = exDbB.participants ++ rows ∧
      rows.map (fun p => p.userId) = jsSetDedup ([1, 2] ++ [3]) ∧
      (rows.map (fun p => p.userId)).Nodup) ∧
    (∀ x, x ∈ jsSetDedup ([1, 2] ++ [3]) ↔ x ∈ 3 :: [1, 2]) ∧
    ((3 :: [1, 2]).Nodup → (jsSetDedup ([1, 2] ++ [3])).Perm (3 :: [1, 2])) :=
  createConversation_membership_implementations exMemB exDbB
    { participantIds := [1, 2], isGroup := true, name := some "g" } 3 (by decide)

/-! Claim C5: `sendFriendRequest` over an existing record of the pair. -/

theorem mem_sendFriendRequest_rejected_eq (s : MemState) (a b : Nat)
    (r : FriendRequest)
    (hr : s.friendRequests.find? (pairRequestMatch a b) = some r)
    (hst : r.status = FRStatus.rejected) :
    mem_sendFriendRequest s a b =
      ({ r with status := FRStatus.pending, senderId := a, receiverId := b,
                createdAt := s.now },
       { s with friendRequests := (updateFirst (fun x => x.id == r.id)
           (fun _ => { r with status := FRStatus.pending, senderId := a,
                              receiverId := b, createdAt := s.now })
           s.friendRequests) }) := by
  unfold mem_sendFriendRequest
  simp only [hr]
  rw [if_pos hst]

theorem mem_sendFriendRequest_existing_eq (s : MemState) (a b : Nat)
    (r : FriendRequest)
    (hr : s.friendRequests.find? (pairRequestMatch a b) = some r)
    (hst : r.status ≠ FRStatus.rejected) :
    mem_sendFriendRequest s a b = (r, s) := by
  unfold mem_sendFriendRequest
  simp only [hr]
  rw [if_neg hst]

theorem db_sendFriendRequest_rejected_eq (d : DBState) (a b : Nat)
    (r : FriendRequest)
    (hr : d.friendRequests.find? (pairRequestMatch a b) = some r)
    (hst : r.status = FRStatus.rejected) :
    db_sendFriendRequest d a b =
      ({ r with status := FRStatus.pending, senderId := a, receiverId := b,
                createdAt := d.now },
       { d with friendRequests := (d.friendRequests.map
           (fun x => if x.id == r.id then
              { r with status := FRStatus.pending, senderId := a,
                       receiverId := b, createdAt := d.now } else x)) }) := by
  unfold db_sendFriendRequest
  simp only [hr]
  rw [if_pos hst]

theorem db_sendFriendRequest_existing_eq (d : DBState) (a b : Nat)
    (r : FriendRequest)
    (hr : d.friendRequests.find? (pairRequestMatch a b) = some r)
    (hst : r.status ≠ FRStatus.rejected) :
    db_sendFriendRequest d a b = (r, d) := by
  unfold db_sendFriendRequest
  simp only [hr]
  rw [if_neg hst]

/-- Sample rejected friend request between users 1 and 2 with id 5. -/
def exFrRejected : FriendRequest :=
  { id := 5, senderId := 1, receiverId := 2, status := FRStatus.rejected,
    createdAt := 0 }

/-- Sample in-memory state whose only friend-request record is the rejected
`exFrRejected`. -/
def exMemC : MemState :=
  { users := [], conversations := [], participants := [], messages := [],
    friendRequests := [exFrRejected], nextId := 20, now := 100 }

/-- Sample database state mirroring `exMemC`. -/
def exDbC : DBState :=
  { users := [], conversations := [], participants := [], messages := [],
    friendRequests := [exFrRejected], nextId := 20, now := 100 }

/-- C5 counterexample: resending over the lone rejected record (id 5) does
yield a pending record, but with the SAME id 5 — not a fresh id distinct
from the rejected record's — in both implementations. -/
theorem sendFriendRequest_fresh_id_counterexample :
    (mem_sendFriendRequest exMemC 2 1).1.status = FRStatus.pending ∧
    (mem_sendFriendRequest exMemC 2 1).1.id = 5 ∧
    (mem_sendFriendRequest exMemC 2 1).2.friendRequests.length = 1 ∧
    (db_sendFriendRequest exDbC 2 1).1.status = FRStatus.pending ∧
    (db_sendFriendRequest exDbC 2 1).1.id = 5 ∧
    (db_sendFriendRequest exDbC 2 1).2.friendRequests.length = 1 := by decide

/-- C5 (amended): when the first record between the pair is rejected,
`sendFriendRequest` succeeds and repurposes that record in place — status
becomes pending, sender/receiver are set to the current caller/callee,
`createdAt` is refreshed, and the id is unchanged (no fresh id, no second
record); when that record is pending or accepted it is returned with the
state unchanged — in both storage implementations. -/
theorem sendFriendRequest_rejected_repurposes_record
    (s : MemState) (d : DBState) (a b : Nat) (r rd : FriendRequest)
    (hr : s.friendRequests.find? (pairRequestMatch a b) = some r)
    (hrd : d.friendRequests.find? (pairRequestMatch a b) = some rd) :
    ((r.status = FRStatus.rejected →
        (mem_sendFriendRequest s a b).1
          = { r with status := FRStatus.pending, senderId := a,
                     receiverId := b, createdAt := s.now } ∧
        (mem_sendFriendRequest s a b).1.id = r.id ∧
        (mem_sendFriendRequest s a b).2.friendRequests.length
          = s.friendRequests.length) ∧
     (r.status ≠ FRStatus.rejected →
        (mem_sendFriendRequest s a b).1 = r ∧
        (mem_sendFriendRequest s a b).2 = s)) ∧
    ((rd.status = FRStatus.rejected →
        (db_sendFriendRequest d a b).1
          = { rd with status := FRStatus.pending, senderId := a,
                      receiverId := b, createdAt := d.now } ∧
        (db_sendFriendRequest d a b).1.id = rd.id ∧
        (db_sendFriendRequest d a b).2.friendRequests.length
          = d.friendRequests.length) ∧
     (rd.status ≠ FRStatus.rejected →
        (db_sendFriendRequest d a b).1 = rd ∧
        (db_sendFriendRequest d a b).2 = d)) := by
  refine ⟨⟨?_, ?_⟩, ⟨?_, ?_⟩⟩
  · intro hst
    rw [mem_sendFriendRequest_rejected_eq s a b r hr hst]
    refine ⟨rfl, rfl, ?_⟩
    show (updateFirst _ _ s.friendRequests).length = _
    exact length_updateFirst _ _ _
  · intro hst
    rw [mem_sendFriendRequest_existing_eq s a b r hr hst]
    exact ⟨rfl, rfl⟩
  · intro hst
    rw [db_sendFriendRequest_rejected_eq d a b rd hrd hst]
    refine ⟨rfl, rfl, ?_⟩
    show (d.friendRequests.map _).length = _
    simp
  · intro hst
    rw [db_sendFriendRequest_existing_eq d a b rd hrd hst]
    exact ⟨rfl, rfl⟩

/-- C5 witness: the amended statement evaluated on the states whose only
record between the pair is rejected. -/
theorem sendFriendRequest_rejected_repurposes_record_witness :
    ((exFrRejected.status = FRStatus.rejected →
        (mem_sendFriendRequest exMemC 2 1).1
          = { exFrRejected with status := FRStatus.pending, senderId := 2,
                                receiverId := 1, createdAt := exMemC.now } ∧
        (mem_sendFriendRequest exMemC 2 1).1.id = exFrRejected.id ∧
        (mem_sendFriendRequest exMemC 2 1).2.friendRequests.length
          = exMemC.friendRequests.length) ∧
     (exFrRejected.status ≠ FRStatus.rejected →
        (mem_sendFriendRequest exMemC 2 1).1 = exFrRejected ∧
        (mem_sendFriendRequest exMemC 2 1).2 = exMemC)) ∧
    ((exFrRejected.status = FRStatus.rejected →
        (db_sendFriendRequest exDbC 2 1).1
          = { exFrRejected with status := FRStatus.pending, senderId := 2,
                                receiverId := 1, createdAt := exDbC.now } ∧
        (db_sendFriendRequest exDbC 2 1).1.id = exFrRejected.id ∧
        (db_sendFriendRequest exDbC 2 1).2.friendRequests.length
          = exDbC.friendRequests.length) ∧
     (exFrRejected.status ≠ FRStatus.rejected →
        (db_sendFriendRequest exDbC 2 1).1 = exFrRejected ∧
        (db_sendFriendRequest exDbC 2 1).2 = exDbC)) :=
  sendFriendRequest_rejected_repurposes_record exMemC exDbC 2 1
    exFrRejected exFrRejected (by decide) (by decide)

/-! Claim C9: the typing-indicator timeout protocol. -/

/-- Emissions produced while processing a list of client events, without
the trailing fire of a still-pending timer. -/
def typingEmitsOf (timer : Option Nat) : List (Bool × Nat) → List TypingEmit
  | [] => []
  | (b, t) :: rest =>
      (match timer with
       | some dl => if dl < t then [TypingEmit.auto] else []
       | none => []) ++
        TypingEmit.echo b :: typingEmitsOf (if b then some (t + 3000) else none) rest

/-- Pending-timer deadline after processing a list of client events. -/
def typingTimerAfter (timer : Option Nat) : List (Bool × Nat) → Option Nat
  | [] => timer
  | (b, t) :: rest => typingTimerAfter (if b then some (t + 3000) else none) rest

theorem runTypingAux_append (xs : List (Bool × Nat)) : ∀ (ys : List (Bool × Nat))
    (timer : Option Nat),
    runTypingAux timer (xs ++ ys)
      = typingEmitsOf timer xs ++ runTypingAux (typingTimerAfter timer xs) ys := by
  induction xs with
  | nil => intro ys timer; rfl
  | cons e rest ih =>
      intro ys timer
      obtain ⟨b, t⟩ := e
      show (match timer with
            | some dl => if dl < t then [TypingEmit.auto] else []
            | none => []) ++ TypingEmit.echo b ::
          runTypingAux (if b then some (t + 3000) else none) (rest ++ ys) = _
      rw [ih ys (if b then some (t + 3000) else none)]
      show _ = ((match timer with
            | some dl => if dl < t then [TypingEmit.auto] else []
            | none => []) ++ TypingEmit.echo b ::
          typingEmitsOf (if b then some (t + 3000) else none) rest) ++
          runTypingAux (typingTimerAfter (if b then some (t + 3000) else none) rest) ys
      simp [List.append_assoc]

theorem runTypingAux_single_true (timer : Option Nat) (t : Nat) :
    ∃ fired : List TypingEmit, runTypingAux timer [(true, t)]
      = fired ++ [TypingEmit.echo true, TypingEmit.auto] := by
  cases timer with
  | none => exact ⟨[], rfl⟩
  | some dl =>
      by_cases h : dl < t
      · exact ⟨[TypingEmit.auto], by simp [runTypingAux, h]⟩
      · exact ⟨[], by simp [runTypingAux, h]⟩

theorem runTypingAux_true_then_false (timer : Option Nat) (t t' : Nat)
    (hc : t' ≤ t + 3000) :
    ∃ fired : List TypingEmit, runTypingAux timer [(true, t), (false, t')]
      = fired ++ [TypingEmit.echo true, TypingEmit.echo false] := by
  have hin : ¬ (t + 3000 < t') := Nat.not_lt.mpr hc
  cases timer with
  | none => exact ⟨[], by simp [runTypingAux, hin]⟩
  | some dl =>
      by_cases h : dl < t
      · exact ⟨[TypingEmit.auto], by simp [runTypingAux, h, hin]⟩
      · exact ⟨[], by simp [runTypingAux, h, hin]⟩

/-- C9: after any event history, a final `typing(conv, true)` with no
further client event makes the handler emit, after the re-broadcast of the
true flag, exactly one synthetic `isTyping = false` (the 3-second timer);
and when the client explicitly sends `typing(conv, false)` within the
3-second window, the trace ends with the two re-broadcasts and no synthetic
false is ever emitted afterwards (the explicit false cancelled the
timer). -/
theorem typing_timeout_fires_once_and_explicit_false_cancels
    (evs : List (Bool × Nat)) (t t' : Nat) (hc : t' ≤ t + 3000) :
    (∃ pre : List TypingEmit, runTyping (evs ++ [(true, t)])
        = pre ++ [TypingEmit.echo true, TypingEmit.auto]) ∧
    (∃ pre : List TypingEmit, runTyping (evs ++ [(true, t), (false, t')])
        = pre ++ [TypingEmit.echo true, TypingEmit.echo false]) := by
  constructor
  · obtain ⟨fired, hf⟩ :=
      runTypingAux_single_true (typingTimerAfter none evs) t
    refine ⟨typingEmitsOf none evs ++ fired, ?_⟩
    rw [runTyping, runTypingAux_append evs [(true, t)] none, hf,
        List.append_assoc]
  · obtain ⟨fired, hf⟩ :=
      runTypingAux_true_then_false (typingTimerAfter none evs) t t' hc
    refine ⟨typingEmitsOf none evs ++ fired, ?_⟩
    rw [runTyping, runTypingAux_append evs [(true, t), (false, t')] none, hf,
        List.append_assoc]

/-- C9 witness: a burst of two keystrokes at times 0 and 1000 followed by
silence, and the same burst followed by an explicit stop at time 2000. -/
theorem typing_timeout_fires_once_and_explicit_false_cancels_witness :
    (∃ pre : List TypingEmit, runTyping ([(true, 0)] ++ [(true, 1000)])
        = pre ++ [TypingEmit.echo true, TypingEmit.auto]) ∧
    (∃ pre : List TypingEmit, runTyping ([(true, 0)] ++ [(true, 1000), (false, 2000)])
        = pre ++ [TypingEmit.echo true, TypingEmit.echo false]) :=
  typing_timeout_fires_once_and_explicit_false_cancels [(true, 0)] 1000 2000
    (by decide)

/-! Claim C4: the window returned by `getMessagesByConversationId`. -/

theorem resolveSenders_msgs (us : List User) (ms : List Message)
    (h : ∀ m ∈ ms, m.isSystem = false →
      (m.senderId >>= (fun sid => us.find? (fun x => x.id == sid))).isSome = true) :
    (resolveSenders us ms).map (fun x => x.msg) = ms := by
  induction ms with
  | nil => rfl
  | cons m rest ih =>
      have ihrest := ih (fun m' hm' => h m' (List.mem_cons_of_mem _ hm'))
      by_cases hs : m.isSystem = true
      · simp [resolveSenders, hs, ihrest]
      · have hsf : m.isSystem = false := by
          cases hval : m.isSystem
          · rfl
          · exact absurd hval hs
        have hsome := h m (List.mem_cons_self _ _) hsf
        cases hbind : m.senderId >>= (fun sid => us.find? (fun x => x.id == sid)) with
        | none => rw [hbind] at hsome; cases hsome
        | some u => simp [resolveSenders, hs, hbind, ihrest]

theorem insertDesc_append (m : Message) (l : List Message)
    (h : ∀ x ∈ l, m.createdAt ≤ x.createdAt) : insertDesc m l = l ++ [m] := by
  induction l with
  | nil => rfl
  | cons x xs ih =>
      show (if m.createdAt ≤ x.createdAt then x :: insertDesc m xs
            else m :: x :: xs) = _
      rw [if_pos (h x (List.mem_cons_self _ _))]
      rw [ih (fun y hy => h y (List.mem_cons_of_mem _ hy))]
      rfl

theorem sortDesc_of_sorted (l : List Message)
    (h : List.Pairwise (fun x y => x.createdAt < y.createdAt) l) :
    sortDesc l = l.reverse := by
  induction l with
  | nil => rfl
  | cons m rest ih =>
      have hp := List.pairwise_cons.mp h
      show insertDesc m (sortDesc rest) = _
      rw [ih hp.2, insertDesc_append m rest.reverse
        (fun x hx => le_of_lt (hp.1 x (List.mem_reverse.mp hx))),
        List.reverse_cons]

theorem reverse_take_reverse {α : Type} (l : List α) (n : Nat) :
    (l.reverse.take n).reverse = l.drop (l.length - n) := by
  by_cases h : n ≤ l.length
  · have hrt : (List.take n l.reverse).reverse
        = List.drop (l.reverse.length - n) l.reverse.reverse := List.reverse_take
    rw [hrt, List.reverse_reverse, List.length_reverse]
  · have hge : l.length ≤ n := le_of_not_le h
    rw [List.take_of_length_le (by rw [List.length_reverse]; exact hge),
        List.reverse_reverse, Nat.sub_eq_zero_of_le hge, List.drop_zero]

/-- Sample in-memory state for the message-window claim: conversation 0
holds two system messages, at times 1 and 2. -/
def exMemD : MemState :=
  { users := [], conversations := [], participants := [],
    messages := [(0, [sampleMsg 1 1 true, sampleMsg 2 2 true])],
    friendRequests := [], nextId := 20, now := 100 }

/-- Sample database state mirroring `exMemD`. -/
def exDbD : DBState :=
  { users := [], conversations := [], participants := [],
    messages := [sampleMsg 1 1 true, sampleMsg 2 2 true],
    friendRequests := [], nextId := 20, now := 100 }

/-- C4 counterexample: conversation 0 holds messages 1 (older) and 2
(newer); with limit 1 both implementations return message 2, the NEWEST
one, not the oldest as claimed. -/
theorem getMessages_returns_newest_counterexample :
    (mem_getMessagesByConversationId exMemD 0 1).map (fun x => x.msg.id) = [2] ∧
    (db_getMessagesByConversationId exDbD 0 1).map (fun x => x.msg.id) = [2] ∧
    ¬ ((mem_getMessagesByConversationId exMemD 0 1).map (fun x => x.msg.id) = [1]) ∧
    ¬ ((db_getMessagesByConversationId exDbD 0 1).map (fun x => x.msg.id) = [1]) := by
  decide

/-- C4 (amended): with a positive limit, every resolvable sender, and the
conversation's log strictly ascending by timestamp, both implementations
return the NEWEST `limit` messages — the final `limit` entries of the
chronologically ascending log — ordered oldest to newest within the
returned window (the whole log when it holds at most `limit` messages). -/
theorem getMessages_returns_newest_window
    (s : MemState) (d : DBState) (cid limitN : Nat) (hpos : 0 < limitN)
    (hres : ∀ m ∈ memMessagesOf s cid, m.isSystem = false →
      (m.senderId >>= (fun sid => s.users.find? (fun x => x.id == sid))).isSome
        = true)
    (hdres : ∀ m ∈ d.messages.filter (fun m => m.conversationId == cid),
      m.isSystem = false →
      (m.senderId >>= (fun sid => d.users.find? (fun x => x.id == sid))).isSome
        = true)
    (hdsort : List.Pairwise (fun x y => x.createdAt < y.createdAt)
      (d.messages.filter (fun m => m.conversationId == cid))) :
    (mem_getMessagesByConversationId s cid limitN).map (fun x => x.msg)
      = (memMessagesOf s cid).drop ((memMessagesOf s cid).length - limitN) ∧
    (db_getMessagesByConversationId d cid limitN).map (fun x => x.msg)
      = (d.messages.filter (fun m => m.conversationId == cid)).drop
          ((d.messages.filter (fun m => m.conversationId == cid)).length - limitN) := by
  constructor
  · unfold mem_getMessagesByConversationId
    dsimp only
    rw [if_neg (Nat.pos_iff_ne_zero.mp hpos)]
    exact resolveSenders_msgs s.users _
      (fun m hm => hres m (List.mem_of_mem_drop hm))
  · unfold db_getMessagesByConversationId
    dsimp only
    rw [sortDesc_of_sorted _ hdsort, reverse_take_reverse]
    exact resolveSenders_msgs d.users _
      (fun m hm => hdres m (List.mem_of_mem_drop hm))

/-- C4 witness: the amended statement on the two-message states with
limit 1. -/
theorem getMessages_returns_newest_window_witness :
    (mem_getMessagesByConversationId exMemD 0 1).map (fun x => x.msg)
      = (memMessagesOf exMemD 0).drop ((memMessagesOf exMemD 0).length - 1) ∧
    (db_getMessagesByConversationId exDbD 0 1).map (fun x => x.msg)
      = (exDbD.messages.filter (fun m => m.conversationId == 0)).drop
          ((exDbD.messages.filter (fun m => m.conversationId == 0)).length - 1) :=
  getMessages_returns_newest_window exMemD exDbD 0 1 (by decide) (by decide)
    (by decide) (by decide)

/-! Claims C7 and C6: the update-friend-request route handler. -/

/-- Sample user used by the handler witnesses. -/
def sampleUser (n : Nat) : User := { id := n, username := "u", displayName := "u" }

/-- Sample pending friend request: id 7, from user 1 to user 2. -/
def exFrPending : FriendRequest :=
  { id := 7, senderId := 1, receiverId := 2, status := FRStatus.pending,
    createdAt := 0 }

/-- Sample in-memory state holding users 1 and 2 and the pending request
`exFrPending`. -/
def exMemH : MemState :=
  { users := [sampleUser 1, sampleUser 2], conversations := [],
    participants := [], messages := [], friendRequests := [exFrPending],
    nextId := 30, now := 50 }

/-- C7: a caller who is not the request's receiver gets Forbidden and the
state — in particular the request's record and status — is unchanged. -/
theorem updateRequest_forbidden_for_non_receiver
    (s : MemState) (callerId requestId : Nat) (st : FRStatus)
    (r : FriendRequest)
    (hr : mem_getFriendRequestById s requestId = some r)
    (hne : r.receiverId ≠ callerId) :
    patchFriendRequestHandler s callerId requestId st
      = (UpdateResult.forbidden, s) ∧
    mem_getFriendRequestById
        (patchFriendRequestHandler s callerId requestId st).2 requestId
      = some r := by
  have h1 : patchFriendRequestHandler s callerId requestId st
      = (UpdateResult.forbidden, s) := by
    unfold patchFriendRequestHandler
    simp only [hr]
    rw [if_pos hne]
  refine ⟨h1, ?_⟩
  rw [h1]
  exact hr

/-- C7 witness: user 1, the sender (not the receiver) of pending request 7,
attempts to accept it. -/
theorem updateRequest_forbidden_for_non_receiver_witness :
    patchFriendRequestHandler exMemH 1 7 FRStatus.accepted
      = (UpdateResult.forbidden, exMemH) ∧
    mem_getFriendRequestById
        (patchFriendRequestHandler exMemH 1 7 FRStatus.accepted).2 7
      = some exFrPending :=
  updateRequest_forbidden_for_non_receiver exMemH 1 7 FRStatus.accepted
    exFrPending (by decide) (by decide)

/-! Supporting lemmas for the acceptance path. -/

theorem memParticipantsOf_congr (x y : MemState) (cid : Nat)
    (h : x.participants = y.participants) :
    memParticipantsOf x cid = memParticipantsOf y cid := by
  unfold memParticipantsOf
  rw [h]

theorem memMessagesOf_congr (x y : MemState) (cid : Nat)
    (h : x.messages = y.messages) :
    memMessagesOf x cid = memMessagesOf y cid := by
  unfold memMessagesOf
  rw [h]

theorem getFriendRequestById_congr (x y : MemState) (rid : Nat)
    (h : x.friendRequests = y.friendRequests) :
    mem_getFriendRequestById x rid = mem_getFriendRequestById y rid := by
  unfold mem_getFriendRequestById
  rw [h]

theorem mem_updateFriendRequestStatus_getById (s : MemState) (rid : Nat)
    (st : FRStatus) (r : FriendRequest)
    (hr : mem_getFriendRequestById s rid = some r) :
    mem_getFriendRequestById (mem_updateFriendRequestStatus s rid st) rid
      = some { r with status := st } := by
  unfold mem_getFriendRequestById at hr ⊢
  unfold mem_updateFriendRequestStatus
  dsimp only
  rw [find?_updateFirst (fun x => x.id == rid)
    (fun x => { x with status := st }) (fun x => rfl) s.friendRequests, hr]
  rfl

theorem pair_mem_iff (u v a b : Nat) (hab : a ≠ b)
    (ha : a = u ∨ a = v) (hb : b = u ∨ b = v) :
    ∀ x : Nat, (x = u ∨ x = v) ↔ (x = a ∨ x = b) := by
  intro x
  rcases ha with rfl | rfl <;> rcases hb with rfl | rfl <;> tauto

theorem privateMatch_true_elim (s : MemState) (a b : Nat) (cv : Conversation)
    (h : privateMatch s a b cv = true) :
    cv.isGroup = false ∧
    ((memParticipantsOf s cv.id).map (fun p => p.userId)).length = 2 ∧
    a ∈ (memParticipantsOf s cv.id).map (fun p => p.userId) ∧
    b ∈ (memParticipantsOf s cv.id).map (fun p => p.userId) := by
  unfold privateMatch at h
  dsimp only at h
  rw [Bool.and_eq_true, Bool.and_eq_true, Bool.and_eq_true] at h
  obtain ⟨hg, ⟨hlen, hca⟩, hcb⟩ := h
  refine ⟨?_, by simpa using hlen, by simpa using hca, by simpa using hcb⟩
  cases hval : cv.isGroup
  · rfl
  · rw [hval] at hg
    cases hg

theorem mem_findOrCreate_spec (s : MemState) (a b : Nat) (hWF : MemWF s)
    (hab : a ≠ b) :
    (mem_findOrCreatePrivateConversation s a b).1.isGroup = false ∧
    (∀ x, x ∈ (memParticipantsOf (mem_findOrCreatePrivateConversation s a b).2
        (mem_findOrCreatePrivateConversation s a b).1.id).map (fun p => p.userId)
      ↔ (x = a ∨ x = b)) ∧
    (mem_findOrCreatePrivateConversation s a b).2.messages = s.messages ∧
    (mem_findOrCreatePrivateConversation s a b).2.users = s.users ∧
    (mem_findOrCreatePrivateConversation s a b).2.friendRequests
      = s.friendRequests ∧
    (mem_findOrCreatePrivateConversation s a b).2.now = s.now := by
  unfold mem_findOrCreatePrivateConversation
  cases hfind : s.conversations.find? (privateMatch s a b) with
  | some cv =>
      simp only [hfind]
      obtain ⟨hg, hlen, ha, hb⟩ :=
        privateMatch_true_elim s a b cv (List.find?_some hfind)
      obtain ⟨u, v, huv⟩ := List.length_eq_two.mp hlen
      refine ⟨hg, ?_, by simp, by simp, by simp, by simp⟩
      intro x
      rw [huv] at ha hb ⊢
      have hiff := pair_mem_iff u v a b hab (by simpa using ha)
        (by simpa using hb) x
      simpa using hiff
  | none =>
      simp only [hfind]
      obtain ⟨h1, h2, h3, h4, h5, h6, h7, h8, h9⟩ :=
        mem_createConversation_spec s
          { participantIds := [b], isGroup := false, name := none } a hWF
      refine ⟨h2, ?_, h6, h7, h8, h9⟩
      intro x
      rw [h4]
      simp

theorem mem_createMessage_fields (s : MemState) (data : InsertMessage) :
    (mem_createMessage s data).2.participants = s.participants ∧
    (mem_createMessage s data).2.users = s.users ∧
    (mem_createMessage s data).2.friendRequests = s.friendRequests := by
  unfold mem_createMessage
  dsimp only
  split
  · exact ⟨rfl, rfl, rfl⟩
  · split
    · exact ⟨rfl, rfl, rfl⟩
    · exact ⟨rfl, rfl, rfl⟩

theorem upd_last_messages (s : MemState) (cid : Nat) :
    (mem_updateConversationLastMessage s cid).messages = s.messages := rfl

theorem mem_createMessage_messages (s : MemState) (data : InsertMessage) :
    memMessagesOf (mem_createMessage s data).2 data.conversationId
      = memMessagesOf s data.conversationId ++
        [{ id := s.nextId, conversationId := data.conversationId,
           senderId := data.senderId, content := data.content,
           isSystem := data.isSystem, createdAt := s.now }] := by
  have hsplit : (mem_createMessage s data).2.messages
      = setL data.conversationId (memMessagesOf s data.conversationId ++
          [{ id := s.nextId, conversationId := data.conversationId,
             senderId := data.senderId, content := data.content,
             isSystem := data.isSystem, createdAt := s.now }]) s.messages := by
    unfold mem_createMessage
    dsimp only
    split
    · rfl
    · split
      · rfl
      · rfl
  unfold memMessagesOf
  rw [hsplit, lookupL_setL_self]
  rfl

theorem mem_createMessage_messages' (s : MemState) (cid : Nat)
    (sid : Option Nat) (body : String) (sys : Bool) :
    memMessagesOf (mem_createMessage s
        { conversationId := cid, senderId := sid, content := body,
          isSystem := sys }).2 cid
      = memMessagesOf s cid ++
        [{ id := s.nextId, conversationId := cid, senderId := sid,
           content := body, isSystem := sys, createdAt := s.now }] :=
  mem_createMessage_messages s
    { conversationId := cid, senderId := sid, content := body, isSystem := sys }

/-- C6: when the receiver of a pending friend request accepts it, the
request's status becomes accepted, a non-group conversation whose
participant user-id set is exactly {sender, receiver} exists in the final
state (found or created), and exactly one system message with body
"You both are friends now" and no sender has been appended to it. -/
theorem acceptRequest_sets_status_conversation_and_system_message
    (s : MemState) (requestId : Nat) (r : FriendRequest) (hWF : MemWF s)
    (hr : mem_getFriendRequestById s requestId = some r)
    (hpend : r.status = FRStatus.pending)
    (hne : r.senderId ≠ r.receiverId) :
    (patchFriendRequestHandler s r.receiverId requestId FRStatus.accepted).1
      = UpdateResult.ok ∧
    mem_getFriendRequestById
        (patchFriendRequestHandler s r.receiverId requestId
          FRStatus.accepted).2 requestId
      = some { r with status := FRStatus.accepted } ∧
    (∃ cv : Conversation, cv.isGroup = false ∧
      (∀ x, x ∈ (memParticipantsOf
          (patchFriendRequestHandler s r.receiverId requestId
            FRStatus.accepted).2 cv.id).map (fun p => p.userId)
        ↔ (x = r.senderId ∨ x = r.receiverId)) ∧
      (∃ m : Message,
        memMessagesOf (patchFriendRequestHandler s r.receiverId requestId
            FRStatus.accepted).2 cv.id
          = memMessagesOf s cv.id ++ [m] ∧
        m.isSystem = true ∧ m.senderId = none ∧
        m.content = "You both are friends now")) := by
  have hne' : r.receiverId ≠ r.senderId := fun h => hne h.symm
  have hred : patchFriendRequestHandler s r.receiverId requestId
        FRStatus.accepted
      = (UpdateResult.ok,
         (mem_createMessage
           (mem_findOrCreatePrivateConversation
             (mem_updateFriendRequestStatus s requestId FRStatus.accepted)
             r.receiverId r.senderId).2
           { conversationId := (mem_findOrCreatePrivateConversation
               (mem_updateFriendRequestStatus s requestId FRStatus.accepted)
               r.receiverId r.senderId).1.id,
             senderId := none, content := "You both are friends now",
             isSystem := true }).2) := by
    unfold patchFriendRequestHandler
    simp only [hr]
    rw [if_neg (fun h : r.receiverId ≠ r.receiverId => h rfl)]
    simp only [if_true]
  have hWF1 : MemWF (mem_updateFriendRequestStatus s requestId
      FRStatus.accepted) := hWF
  obtain ⟨hg, hiff, hmsg, husers, hfr, hnow⟩ :=
    mem_findOrCreate_spec
      (mem_updateFriendRequestStatus s requestId FRStatus.accepted)
      r.receiverId r.senderId hWF1 hne'
  rw [hred]
  refine ⟨rfl, ?_, ?_⟩
  · rw [getFriendRequestById_congr _
      (mem_updateFriendRequestStatus s requestId FRStatus.accepted) requestId]
    · exact mem_updateFriendRequestStatus_getById s requestId
        FRStatus.accepted r hr
    · rw [(mem_createMessage_fields _ _).2.2]
      exact hfr
  · refine ⟨(mem_findOrCreatePrivateConversation
        (mem_updateFriendRequestStatus s requestId FRStatus.accepted)
        r.receiverId r.senderId).1, hg, ?_, ?_⟩
    · intro x
      rw [memParticipantsOf_congr _
        (mem_findOrCreatePrivateConversation
          (mem_updateFriendRequestStatus s requestId FRStatus.accepted)
          r.receiverId r.senderId).2 _ (mem_createMessage_fields _ _).1]
      rw [hiff x]
      constructor
      · rintro (rfl | rfl)
        · exact Or.inr rfl
        · exact Or.inl rfl
      · rintro (rfl | rfl)
        · exact Or.inr rfl
        · exact Or.inl rfl
    · have hm := mem_createMessage_messages'
        (mem_findOrCreatePrivateConversation
          (mem_updateFriendRequestStatus s requestId FRStatus.accepted)
          r.receiverId r.senderId).2
        (mem_findOrCreatePrivateConversation
          (mem_updateFriendRequestStatus s requestId FRStatus.accepted)
          r.receiverId r.senderId).1.id
        none "You both are friends now" true
      rw [memMessagesOf_congr
        (mem_findOrCreatePrivateConversation
          (mem_updateFriendRequestStatus s requestId FRStatus.accepted)
          r.receiverId r.senderId).2
        (mem_updateFriendRequestStatus s requestId FRStatus.accepted)
        (mem_findOrCreatePrivateConversation
          (mem_updateFriendRequestStatus s requestId FRStatus.accepted)
          r.receiverId r.senderId).1.id hmsg] at hm
      exact ⟨_, hm, rfl, rfl, rfl⟩

/-- C6 witness: user 2 (the receiver) accepts pending request 7 from
user 1 on the sample state. -/
theorem acceptRequest_sets_status_conversation_and_system_message_witness :
    (patchFriendRequestHandler exMemH exFrPending.receiverId 7
        FRStatus.accepted).1 = UpdateResult.ok ∧
    mem_getFriendRequestById
        (patchFriendRequestHandler exMemH exFrPending.receiverId 7
          FRStatus.accepted).2 7
      = some { exFrPending with status := FRStatus.accepted } ∧
    (∃ cv : Conversation, cv.isGroup = false ∧
      (∀ x, x ∈ (memParticipantsOf
          (patchFriendRequestHandler exMemH exFrPending.receiverId 7
            FRStatus.accepted).2 cv.id).map (fun p => p.userId)
        ↔ (x = exFrPending.senderId ∨ x = exFrPending.receiverId)) ∧
      (∃ m : Message,
        memMessagesOf (patchFriendRequestHandler exMemH exFrPending.receiverId 7
            FRStatus.accepted).2 cv.id
          = memMessagesOf exMemH cv.id ++ [m] ∧
        m.isSystem = true ∧ m.senderId = none ∧
        m.content = "You both are friends now")) :=
  acceptRequest_sets_status_conversation_and_system_message exMemH 7
    exFrPending (by decide) (by decide) (by decide) (by decide)

/-! Claim C3: `findOrCreatePrivateConversation` called twice. -/

theorem privateMatch_congr (x y : MemState) (a b : Nat) (cv : Conversation)
    (h : lookupL cv.id x.participants = lookupL cv.id y.participants) :
    privateMatch x a b cv = privateMatch y a b cv := by
  unfold privateMatch memParticipantsOf
  rw [h]

theorem findSome?_some_exists {α β : Type} (f : α → Option β) (l : List α)
    (b0 : β) (h : l.findSome? f = some b0) : ∃ x ∈ l, f x = some b0 := by
  induction l with
  | nil => cases h
  | cons x xs ih =>
      rw [List.findSome?_cons] at h
      cases hfx : f x with
      | some y =>
          rw [hfx] at h
          have h' : some y = some b0 := h
          exact ⟨x, List.mem_cons_self _ _, by rw [hfx]; exact h'⟩
      | none =>
          rw [hfx] at h
          have h' : List.findSome? f xs = some b0 := h
          obtain ⟨z, hz, hfz⟩ := ih h'
          exact ⟨z, List.mem_cons_of_mem _ hz, hfz⟩

theorem countP_or_disjoint {α : Type} (p q : α → Bool) (l : List α)
    (h : ∀ x ∈ l, ¬(p x = true ∧ q x = true)) :
    l.countP (fun x => p x || q x) = l.countP p + l.countP q := by
  induction l with
  | nil => rfl
  | cons y ys ih =>
      have ihys := ih (fun x hx => h x (List.mem_cons_of_mem _ hx))
      rw [List.countP_cons, List.countP_cons, List.countP_cons, ihys]
      by_cases hp : p y = true
      · have hq : q y = false := by
          cases hqv : q y
          · rfl
          · exact absurd ⟨hp, hqv⟩ (h y (List.mem_cons_self _ _))
        simp [hp, hq]
        omega
      · have hp' : p y = false := by
          cases hpv : p y
          · rfl
          · exact absurd hpv hp
        cases hq : q y <;> simp [hp', hq] <;> omega

theorem countP_id_eq_one (us : List User) (a : Nat)
    (hnd : (us.map User.id).Nodup) (ha : a ∈ us.map User.id) :
    us.countP (fun u => u.id == a) = 1 := by
  have h1 : List.count a (us.map User.id) = 1 :=
    List.count_eq_one_of_mem hnd ha
  rw [List.count_eq_countP, List.countP_map] at h1
  exact h1

theorem resolved_pair_userIds (us : List User) (ids : List Nat) (a b : Nat)
    (hab : a ≠ b) (hnd : (us.map User.id).Nodup)
    (hFK : ∀ x ∈ ids, x ∈ us.map User.id)
    (hia : a ∈ ids) (hib : b ∈ ids)
    (hlen : (us.filter (fun u => ids.contains u.id)).length = 2) :
    ∀ x ∈ ids, x = a ∨ x = b := by
  intro x hx
  by_contra hcon
  rw [not_or] at hcon
  obtain ⟨hxa, hxb⟩ := hcon
  have hcnt : us.countP (fun u => ids.contains u.id) = 2 := by
    rw [List.countP_eq_length_filter]
    exact hlen
  have hmono : us.countP (fun u => (u.id == a || u.id == b) || u.id == x)
      ≤ us.countP (fun u => ids.contains u.id) := by
    refine List.countP_mono_left ?_
    intro u _ hu
    rw [Bool.or_eq_true, Bool.or_eq_true] at hu
    have : u.id ∈ ids := by
      rcases hu with (h1 | h2) | h3
      · rw [show u.id = a by simpa using h1]; exact hia
      · rw [show u.id = b by simpa using h2]; exact hib
      · rw [show u.id = x by simpa using h3]; exact hx
    simpa using this
  have hab' : us.countP (fun u => u.id == a || u.id == b)
      = us.countP (fun u => u.id == a) + us.countP (fun u => u.id == b) := by
    refine countP_or_disjoint _ _ _ ?_
    rintro u _ ⟨h1, h2⟩
    have hua : u.id = a := by simpa using h1
    have hub : u.id = b := by simpa using h2
    exact hab (hua ▸ hub)
  have habx : us.countP (fun u => (u.id == a || u.id == b) || u.id == x)
      = us.countP (fun u => u.id == a || u.id == b)
        + us.countP (fun u => u.id == x) := by
    refine countP_or_disjoint _ _ _ ?_
    rintro u _ ⟨h1, h2⟩
    have hux : u.id = x := by simpa using h2
    rw [Bool.or_eq_true] at h1
    rcases h1 with h1a | h1b
    · exact hxa (by rw [← hux]; simpa using h1a)
    · exact hxb (by rw [← hux]; simpa using h1b)
  have h3 : us.countP (fun u => (u.id == a || u.id == b) || u.id == x) = 3 := by
    rw [habx, hab', countP_id_eq_one us a hnd (hFK a hia),
        countP_id_eq_one us b hnd (hFK b hib),
        countP_id_eq_one us x hnd (hFK x hx)]
  rw [h3, hcnt] at hmono
  omega

theorem mem_findOrCreate_idem (s : MemState) (a b : Nat) (hWF : MemWF s)
    (hab : a ≠ b) :
    mem_findOrCreatePrivateConversation
        (mem_findOrCreatePrivateConversation s a b).2 a b
      = ((mem_findOrCreatePrivateConversation s a b).1,
         (mem_findOrCreatePrivateConversation s a b).2) := by
  cases hfind : s.conversations.find? (privateMatch s a b) with
  | some cv =>
      have h1 : mem_findOrCreatePrivateConversation s a b = (cv, s) := by
        unfold mem_findOrCreatePrivateConversation
        simp only [hfind]
      rw [h1]
      exact h1
  | none =>
      have h1 : mem_findOrCreatePrivateConversation s a b
          = mem_createConversation s
              { participantIds := [b], isGroup := false, name := none } a := by
        unfold mem_findOrCreatePrivateConversation
        simp only [hfind]
      obtain ⟨hid, hgrp, hconvs, huserIds, hlkne, hmsgs, husers, hfr, hnow⟩ :=
        mem_createConversation_spec s
          { participantIds := [b], isGroup := false, name := none } a hWF
      rw [h1]
      have hnone2 : s.conversations.find?
          (privateMatch (mem_createConversation s
            { participantIds := [b], isGroup := false, name := none } a).2 a b)
          = none := by
        rw [List.find?_eq_none]
        intro c hc
        rw [privateMatch_congr _ s a b c
          (hlkne c.id (Nat.ne_of_lt (hWF.1 c hc)))]
        exact List.find?_eq_none.mp hfind c hc
      have hp : privateMatch (mem_createConversation s
            { participantIds := [b], isGroup := false, name := none } a).2 a b
            (mem_createConversation s
              { participantIds := [b], isGroup := false, name := none } a).1
          = true := by
        unfold privateMatch
        dsimp only
        rw [hgrp, huserIds]
        simp [hab]
      have hsecond : (mem_createConversation s
            { participantIds := [b], isGroup := false, name := none } a).2.conversations.find?
            (privateMatch (mem_createConversation s
              { participantIds := [b], isGroup := false, name := none } a).2 a b)
          = some (mem_createConversation s
              { participantIds := [b], isGroup := false, name := none } a).1 := by
        rw [hconvs, List.find?_append, hnone2, Option.none_or,
            List.find?_cons, hp]
      unfold mem_findOrCreatePrivateConversation
      simp only [hsecond]

theorem contains_congr (l1 l2 : List Nat) (x : Nat) (h : x ∈ l1 ↔ x ∈ l2) :
    l1.contains x = l2.contains x := by
  rw [Bool.eq_iff_iff]
  constructor
  · intro hx
    have hx' : x ∈ l1 := by simpa using hx
    simpa using h.mp hx'
  · intro hx
    have hx' : x ∈ l2 := by simpa using hx
    simpa using h.mpr hx'

theorem db_privateProbe_some_elim (d : DBState) (cid : Nat) (cv : Conversation)
    (h : db_privateProbe d cid = some cv) :
    db_getConversationById d cid = some cv ∧ cv.isGroup = false ∧
    (db_getConversationParticipants d cid).length = 2 := by
  unfold db_privateProbe at h
  cases hg : db_getConversationById d cid with
  | none => rw [hg] at h; cases h
  | some cv0 =>
      rw [hg] at h
      have h' : (if (!cv0.isGroup
          && (db_getConversationParticipants d cid).length == 2) = true
          then some cv0 else none) = some cv := h
      by_cases hc : (!cv0.isGroup
          && (db_getConversationParticipants d cid).length == 2) = true
      · rw [if_pos hc] at h'
        obtain rfl : cv0 = cv := Option.some.inj h'
        rw [Bool.and_eq_true] at hc
        refine ⟨rfl, ?_, by simpa using hc.2⟩
        have h1 := hc.1
        cases hv : cv0.isGroup
        · rfl
        · rw [hv] at h1; cases h1
      · rw [if_neg hc] at h'; cases h'

theorem db_getById_some (d : DBState) (cid : Nat) (cv : Conversation)
    (h : db_getConversationById d cid = some cv) :
    cv.id = cid ∧ cv ∈ d.conversations := by
  unfold db_getConversationById at h
  exact ⟨by simpa using List.find?_some h, List.mem_of_find?_eq_some h⟩

theorem db_userConvIds_lt (d : DBState) (u : Nat) (hWF : DBWF d) :
    ∀ cid ∈ db_userConvIds d u, cid < d.nextId := by
  intro cid hcid
  unfold db_userConvIds at hcid
  obtain ⟨p, hp, hpc⟩ := List.mem_map.mp hcid
  rw [← hpc]
  exact hWF.2.1 p (List.mem_filter.mp hp).1

theorem db_userConvIds_row (d : DBState) (u cid : Nat)
    (hcid : cid ∈ db_userConvIds d u) :
    ∃ p ∈ d.participants, p.userId = u ∧ p.conversationId = cid := by
  unfold db_userConvIds at hcid
  obtain ⟨p, hp, hpc⟩ := List.mem_map.mp hcid
  obtain ⟨hpm, hpu⟩ := List.mem_filter.mp hp
  exact ⟨p, hpm, by simpa using hpu, hpc⟩

theorem db_commonConvIds_elim (d : DBState) (a b cid : Nat)
    (hcid : cid ∈ db_commonConvIds d a b) :
    cid ∈ db_userConvIds d b ∧ cid ∈ db_userConvIds d a := by
  unfold db_commonConvIds at hcid
  obtain ⟨h2, h1⟩ := List.mem_filter.mp hcid
  exact ⟨h2, by simpa using h1⟩

theorem users_filter_pair_length (us : List User) (a b : Nat) (hab : a ≠ b)
    (hnd : (us.map User.id).Nodup) (ha : a ∈ us.map User.id)
    (hb : b ∈ us.map User.id) :
    (us.filter (fun u => ([b, a]).contains u.id)).length = 2 := by
  rw [← List.countP_eq_length_filter]
  have hcongr : us.countP (fun u => ([b, a]).contains u.id)
      = us.countP (fun u => u.id == b || u.id == a) := by
    refine List.countP_congr ?_
    intro u _
    constructor
    · intro h
      have hm : u.id ∈ [b, a] := by simpa using h
      have : u.id = b ∨ u.id = a := by simpa using hm
      simpa using this
    · intro h
      have : u.id = b ∨ u.id = a := by simpa using h
      have hm : u.id ∈ [b, a] := by simpa using this
      simpa using hm
  rw [hcongr, countP_or_disjoint _ _ _ ?disj,
      countP_id_eq_one us b hnd hb, countP_id_eq_one us a hnd ha]
  case disj =>
    rintro u _ ⟨h1, h2⟩
    have hub : u.id = b := by simpa using h1
    have hua : u.id = a := by simpa using h2
    exact hab (hua.symm.trans hub)

theorem db_findOrCreate_spec (d : DBState) (a b : Nat) (hWF : DBWF d)
    (hab : a ≠ b) (ha : a ∈ d.users.map User.id)
    (hb : b ∈ d.users.map User.id) :
    db_findOrCreatePrivateConversation
        (db_findOrCreatePrivateConversation d a b).2 a b
      = ((db_findOrCreatePrivateConversation d a b).1,
         (db_findOrCreatePrivateConversation d a b).2) ∧
    (db_findOrCreatePrivateConversation d a b).1.isGroup = false ∧
    (∀ x, x ∈ ((db_findOrCreatePrivateConversation d a b).2.participants.filter
        (fun p => p.conversationId
          == (db_findOrCreatePrivateConversation d a b).1.id)).map
        (fun p => p.userId)
      ↔ (x = a ∨ x = b)) := by
  cases hfind : (db_commonConvIds d a b).findSome? (db_privateProbe d) with
  | some cv =>
      have h1 : db_findOrCreatePrivateConversation d a b = (cv, d) := by
        unfold db_findOrCreatePrivateConversation
        simp only [hfind]
      obtain ⟨cid, hcidmem, hprobe⟩ := findSome?_some_exists _ _ _ hfind
      obtain ⟨hgb, hgrp, hlen⟩ := db_privateProbe_some_elim d cid cv hprobe
      obtain ⟨hcvid, _⟩ := db_getById_some d cid cv hgb
      obtain ⟨hc2, hc1⟩ := db_commonConvIds_elim d a b cid hcidmem
      obtain ⟨pA, hpA, hpAu, hpAc⟩ := db_userConvIds_row d a cid hc1
      obtain ⟨pB, hpB, hpBu, hpBc⟩ := db_userConvIds_row d b cid hc2
      have hia : a ∈ (d.participants.filter
          (fun p => p.conversationId == cid)).map (fun p => p.userId) := by
        refine List.mem_map.mpr ⟨pA, ?_, hpAu⟩
        exact List.mem_filter.mpr ⟨hpA, by simpa using hpAc⟩
      have hib : b ∈ (d.participants.filter
          (fun p => p.conversationId == cid)).map (fun p => p.userId) := by
        refine List.mem_map.mpr ⟨pB, ?_, hpBu⟩
        exact List.mem_filter.mpr ⟨hpB, by simpa using hpBc⟩
      have hFK : ∀ x ∈ (d.participants.filter
          (fun p => p.conversationId == cid)).map (fun p => p.userId),
          x ∈ d.users.map User.id := by
        intro x hx
        obtain ⟨p, hp, hpx⟩ := List.mem_map.mp hx
        rw [← hpx]
        exact hWF.2.2.2 p (List.mem_filter.mp hp).1
      have hnil : (d.participants.filter
          (fun p => p.conversationId == cid)).map (fun p => p.userId) ≠ [] :=
        List.ne_nil_of_mem hia
      have hlen' : (d.users.filter (fun u => ((d.participants.filter
          (fun p => p.conversationId == cid)).map
          (fun p => p.userId)).contains u.id)).length = 2 := by
        unfold db_getConversationParticipants at hlen
        dsimp only at hlen
        rw [if_neg (fun hcc => hnil (List.isEmpty_iff.mp hcc))] at hlen
        exact hlen
      have hsub := resolved_pair_userIds d.users _ a b hab hWF.2.2.1 hFK
        hia hib hlen'
      rw [h1]
      refine ⟨h1, hgrp, ?_⟩
      intro x
      dsimp only
      simp only [hcvid]
      constructor
      · intro hx
        exact hsub x hx
      · intro hx
        rcases hx with rfl | rfl
        · exact hia
        · exact hib
  | none =>
      have h1 : db_findOrCreatePrivateConversation d a b
          = db_createConversation d
              { participantIds := [b], isGroup := false, name := none } a := by
        unfold db_findOrCreatePrivateConversation
        simp only [hfind]
      obtain ⟨hid, hgrp, hconvs, ⟨rows, hpart, hrowIds, hrowCid⟩,
        husers, hmsgs, hfr, hnow⟩ :=
        db_createConversation_spec d
          { participantIds := [b], isGroup := false, name := none } a
      have hrowIds2 : rows.map (fun p => p.userId) = [b, a] := by
        have h' : rows.map (fun p => p.userId) = jsSetDedup ([b] ++ [a]) :=
          hrowIds
        rw [h']
        refine jsSetDedup_eq_self _ ?_
        simp [List.nodup_cons]
        exact fun h => hab h.symm
      have hlen2 : rows.length = 2 := by
        have := congrArg List.length hrowIds2
        simpa using this
      obtain ⟨rB, rA, hrowsEq⟩ := List.length_eq_two.mp hlen2
      subst hrowsEq
      have hpairu : rB.userId = b ∧ rA.userId = a := by simpa using hrowIds2
      obtain ⟨hrBu, hrAu⟩ := hpairu
      have hrBc : rB.conversationId = d.nextId := hrowCid rB (by simp)
      have hrAc : rA.conversationId = d.nextId := hrowCid rA (by simp)
      set C := db_createConversation d
        { participantIds := [b], isGroup := false, name := none } a with hC
      have hfilterNew : List.filter (fun p => p.conversationId == d.nextId)
          (d.participants ++ [rB, rA]) = [rB, rA] := by
        rw [List.filter_append]
        have hold : List.filter (fun p => p.conversationId == d.nextId)
            d.participants = [] := by
          rw [List.filter_eq_nil]
          intro p hp
          simp [Nat.ne_of_lt (hWF.2.1 p hp)]
        have hnew : List.filter (fun p => p.conversationId == d.nextId)
            [rB, rA] = [rB, rA] := by
          simp [List.filter_cons, hrBc, hrAc]
        rw [hold, hnew]
        rfl
      have hu1 : db_userConvIds C.2 a = db_userConvIds d a ++ [d.nextId] := by
        unfold db_userConvIds
        rw [hpart, List.filter_append, List.map_append]
        congr 1
        simp [List.filter_cons, hrBu, hrAu, hrAc, Ne.symm hab]
      have hu2 : db_userConvIds C.2 b = db_userConvIds d b ++ [d.nextId] := by
        unfold db_userConvIds
        rw [hpart, List.filter_append, List.map_append]
        congr 1
        simp [List.filter_cons, hrBu, hrAu, hrBc, hab]
      have hcommon : db_commonConvIds C.2 a b
          = db_commonConvIds d a b ++ [d.nextId] := by
        unfold db_commonConvIds
        rw [hu1, hu2, List.filter_append]
        congr 1
        · refine List.filter_congr ?_
          intro cid hcid
          refine contains_congr _ _ _ ?_
          have hlt : cid < d.nextId := db_userConvIds_lt d b hWF cid hcid
          simp [List.mem_append, Nat.ne_of_lt hlt]
        · simp [List.filter_cons]
      have hprobeEq : ∀ cid, cid < d.nextId →
          db_privateProbe C.2 cid = db_privateProbe d cid := by
        intro cid hlt
        have hgbEq : db_getConversationById C.2 cid
            = db_getConversationById d cid := by
          unfold db_getConversationById
          rw [hconvs, List.find?_append]
          have hskip : List.find? (fun c => c.id == cid) [C.1] = none := by
            simp [List.find?_cons, hid, (Nat.ne_of_lt hlt).symm]
          rw [hskip]
          cases hf : List.find? (fun c => c.id == cid) d.conversations
          · rfl
          · rfl
        have hrf : List.filter (fun p => p.conversationId == cid)
            [rB, rA] = [] := by
          simp [List.filter_cons, hrBc, hrAc, (Nat.ne_of_lt hlt).symm]
        have hgpEq : db_getConversationParticipants C.2 cid
            = db_getConversationParticipants d cid := by
          unfold db_getConversationParticipants
          simp only [hpart, husers, List.filter_append, hrf, List.append_nil]
        unfold db_privateProbe
        rw [hgbEq, hgpEq]
      have hprobeNew : db_privateProbe C.2 d.nextId = some C.1 := by
        have hgbNew : db_getConversationById C.2 d.nextId = some C.1 := by
          unfold db_getConversationById
          rw [hconvs, List.find?_append]
          have hfn : List.find? (fun c => c.id == d.nextId)
              d.conversations = none := by
            rw [List.find?_eq_none]
            intro c hc
            simp [Nat.ne_of_lt (hWF.1 c hc)]
          rw [hfn, Option.none_or]
          simp [List.find?_cons, hid]
        have hgpNew : db_getConversationParticipants C.2 d.nextId
            = d.users.filter (fun u => ([b, a]).contains u.id) := by
          unfold db_getConversationParticipants
          simp only [hpart, hfilterNew, husers, List.map_cons, List.map_nil,
            hrBu, hrAu]
          simp
        unfold db_privateProbe
        rw [hgbNew, hgpNew]
        have hlenp : (d.users.filter
            (fun u => ([b, a]).contains u.id)).length = 2 :=
          users_filter_pair_length d.users a b hab hWF.2.2.1 ha hb
        have hgrp' : C.1.isGroup = false := hgrp
        show (if (!C.1.isGroup && ((d.users.filter
            (fun u => ([b, a]).contains u.id)).length == 2)) = true
          then some C.1 else none) = some C.1
        rw [hgrp', hlenp]
        rfl
      have hsecond : (db_commonConvIds C.2 a b).findSome? (db_privateProbe C.2)
          = some C.1 := by
        rw [hcommon, List.findSome?_append]
        have hnone3 : (db_commonConvIds d a b).findSome? (db_privateProbe C.2)
            = none := by
          rw [List.findSome?_eq_none_iff]
          intro cid hcid
          have hlt : cid < d.nextId := db_userConvIds_lt d b hWF cid
            (db_commonConvIds_elim d a b cid hcid).1
          rw [hprobeEq cid hlt]
          exact List.findSome?_eq_none_iff.mp hfind cid hcid
        rw [hnone3, Option.none_or]
        simp [List.findSome?_cons, hprobeNew]
      rw [h1]
      refine ⟨?_, hgrp, ?_⟩
      · unfold db_findOrCreatePrivateConversation
        simp only [hsecond]
      · intro x
        have hfoldid : (C.2.participants.filter
            (fun p => p.conversationId == C.1.id)).map (fun p => p.userId)
            = [b, a] := by
          simp only [hpart, hid, hfilterNew, List.map_cons, List.map_nil,
            hrBu, hrAu]
        rw [hfoldid]
        constructor
        · intro hx
          have : x = b ∨ x = a := by simpa using hx
          tauto
        · intro hx
          have : x = b ∨ x = a := by tauto
          simpa using this

/-- Sample database state for the find-or-create witness: users 1 and 2,
no conversations yet. -/
def exDbW : DBState :=
  { users := [sampleUser 1, sampleUser 2], conversations := [],
    participants := [], messages := [], friendRequests := [], nextId := 10,
    now := 100 }

/-- C3: for distinct users A and B, calling
`findOrCreatePrivateConversation(A, B)` twice in sequence returns the same
conversation id both times, and that conversation is non-group with
participant user-id set exactly {A, B} — in both storage implementations
(the database side additionally assumes the two users exist and the
foreign-key/uniqueness invariants of the schema). -/
theorem findOrCreatePrivate_idempotent_pair
    (s : MemState) (d : DBState) (a b : Nat)
    (hWFm : MemWF s) (hWFd : DBWF d) (hab : a ≠ b)
    (ha : a ∈ d.users.map User.id) (hb : b ∈ d.users.map User.id) :
    (mem_findOrCreatePrivateConversation
        (mem_findOrCreatePrivateConversation s a b).2 a b).1.id
      = (mem_findOrCreatePrivateConversation s a b).1.id ∧
    (mem_findOrCreatePrivateConversation s a b).1.isGroup = false ∧
    (∀ x, x ∈ (memParticipantsOf (mem_findOrCreatePrivateConversation s a b).2
        (mem_findOrCreatePrivateConversation s a b).1.id).map
        (fun p => p.userId)
      ↔ (x = a ∨ x = b)) ∧
    (db_findOrCreatePrivateConversation
        (db_findOrCreatePrivateConversation d a b).2 a b).1.id
      = (db_findOrCreatePrivateConversation d a b).1.id ∧
    (db_findOrCreatePrivateConversation d a b).1.isGroup = false ∧
    (∀ x, x ∈ ((db_findOrCreatePrivateConversation d a b).2.participants.filter
        (fun p => p.conversationId
          == (db_findOrCreatePrivateConversation d a b).1.id)).map
        (fun p => p.userId)
      ↔ (x = a ∨ x = b)) := by
  obtain ⟨hm2, hm3, _, _, _, _⟩ := mem_findOrCreate_spec s a b hWFm hab
  obtain ⟨hd1, hd2, hd3⟩ := db_findOrCreate_spec d a b hWFd hab ha hb
  refine ⟨?_, hm2, hm3, ?_, hd2, hd3⟩
  · rw [mem_findOrCreate_idem s a b hWFm hab]
  · rw [hd1]

/-- C3 witness: the statement evaluated for users 1 and 2 on an empty
in-memory state and a database state holding exactly those two users. -/
theorem findOrCreatePrivate_idempotent_pair_witness :
    (mem_findOrCreatePrivateConversation
        (mem_findOrCreatePrivateConversation exMemB 1 2).2 1 2).1.id
      = (mem_findOrCreatePrivateConversation exMemB 1 2).1.id ∧
    (mem_findOrCreatePrivateConversation exMemB 1 2).1.isGroup = false ∧
    (∀ x, x ∈ (memParticipantsOf
        (mem_findOrCreatePrivateConversation exMemB 1 2).2
        (mem_findOrCreatePrivateConversation exMemB 1 2).1.id).map
        (fun p => p.userId)
      ↔ (x = 1 ∨ x = 2)) ∧
    (db_findOrCreatePrivateConversation
        (db_findOrCreatePrivateConversation exDbW 1 2).2 1 2).1.id
      = (db_findOrCreatePrivateConversation exDbW 1 2).1.id ∧
    (db_findOrCreatePrivateConversation exDbW 1 2).1.isGroup = false ∧
    (∀ x, x ∈ ((db_findOrCreatePrivateConversation exDbW 1 2).2.participants.filter
        (fun p => p.conversationId
          == (db_findOrCreatePrivateConversation exDbW 1 2).1.id)).map
        (fun p => p.userId)
      ↔ (x = 1 ∨ x = 2)) :=
  findOrCreatePrivate_idempotent_pair exMemB exDbW 1 2 (by decide) (by decide)
    (by decide) (by decide) (by decide)

end ChatSphere
